import Mathlib

/-!
# Geany `templates.c`: comment blocks and placeholder substitution

A shallow embedding of the text-producing functions of `src/templates.c`
(`make_comment_block`, `templates_replace_all`, the `templates_get_template_*`
queries, `create_template_file_if_necessary` and the list of custom templates of
`add_custom_template_items`) together with theorems about them.

C strings (`gchar *`) are lists of characters without the terminating NUL; a pointer
that may be `NULL` is an `Option`.
-/

namespace Templates

/-- A C string without its terminating NUL. -/
abbrev Str := List Char

/-- What a C function of result type `gchar *` produces. -/
inductive Outcome where
  /-- A newly allocated string is returned. -/
  | value (s : Str)
  /-- The function returns `NULL`. -/
  | null
  /-- The function reads or writes outside an allocated array, or through `NULL`:
  its behaviour is undefined. -/
  | fault
  deriving DecidableEq, Repr

/-- The fields of `GeanyFiletype` read by `templates.c`. -/
structure GeanyFiletype where
  id : Nat
  name : Str
  extension : Option Str
  comment_open : Option Str
  comment_close : Option Str
  deriving DecidableEq, Repr

/-- The line feed character. -/
def LF : Char := Char.ofNat 10

/-- The carriage return character. -/
def CR : Char := Char.ofNat 13

/-- The space character. -/
def SP : Char := Char.ofNat 32

/-- Largest value of a `guint` (32 bits). -/
def G_MAXUINT : Nat := 4294967295

/-- Conversion of an integer to `guint`. -/
def to_guint (n : Nat) : Nat := n % (G_MAXUINT + 1)

/-- Subtraction `a - b` of two `guint` values: it wraps around below zero. -/
def guint_sub (a b : Nat) : Nat :=
  if b ≤ a then a - b else to_guint (a + (G_MAXUINT + 1) - b)

/-- The macro `NZV(ptr)`: the pointer is not `NULL` and the string is not empty. -/
def NZV (ptr : Option Str) : Bool :=
  match ptr with
  | some (_ :: _) => true
  | _ => false

/-- The string a `const gchar *` argument of `g_strconcat` contributes when it is
known to be non-`NULL` at the call. -/
def str_of (ptr : Option Str) : Str := ptr.getD []

/-- GLib `g_strnfill (length, fill_char)`. -/
def g_strnfill (length : Nat) (fill_char : Char) : Str := List.replicate length fill_char

/-- The pieces of a string between occurrences of a one-character delimiter
(always at least one piece). -/
def split_pieces (delimiter : Char) : Str → List Str
  | [] => [[]]
  | c :: cs =>
    if c = delimiter then [] :: split_pieces delimiter cs
    else
      match split_pieces delimiter cs with
      | [] => [[c]]
      | p :: ps => (c :: p) :: ps

/-- GLib `g_strsplit (string, delimiter, -1)` for a one-character delimiter: the
pieces between the delimiters; splitting the empty string gives the empty vector. -/
def g_strsplit (string : Str) (delimiter : Char) : List Str :=
  if string = [] then [] else split_pieces delimiter string

/-- GLib `g_strv_length`. -/
def g_strv_length (str_array : List Str) : Nat := str_array.length

/-- GLib `g_strjoinv (separator, str_array)`. -/
def g_strjoinv (separator : Str) : List Str → Str
  | [] => []
  | [l] => l
  | l :: l2 :: ls => l ++ separator ++ g_strjoinv separator (l2 :: ls)

/-- Lines 544-572 of `make_comment_block`: the frame put around the comment text and
the text put before every line, as `(frame_start, frame_end, line prefix)`. -/
def comment_frame (ft : GeanyFiletype) : Option Str × Option Str × Str :=
  let first : Option Str × Option Str × Str :=
    if NZV ft.comment_open then
      if NZV ft.comment_close then
        (some (str_of ft.comment_open ++ [LF]), some (str_of ft.comment_close ++ [LF]), [])
      else
        (none, none, str_of ft.comment_open)
    else
      -- use C-like multi-line comments as fallback
      (some ['/', '*', LF], some ['*', '/', LF], [])
  -- do some magic to nicely format C-like multi-line comments
  if NZV first.1 && (str_of first.1).get? 1 == some '*' then
    (first.1, some (SP :: str_of first.2.1), [SP, '*'])
  else first

/-- Lines 574-578 of `make_comment_block`: the real prefix with the given amount of
whitespace. -/
def prefix_with_indent (line_pfx : Str) (indent : Nat) : Str :=
  let i := to_guint (if indent > line_pfx.length then indent - line_pfx.length
                     else line_pfx.length)
  line_pfx ++ g_strnfill i SP

/-- Lines 583-588 of `make_comment_block`: `remaining` more iterations of the loop
`for (...; i < len; i++) lines[i] = g_strconcat(prefix, lines[i], NULL)`, starting at
index `i`. The vector holds `lines.length` strings and the `NULL` that ends it; an
iteration whose index is not that of one of the strings leaves the strings of the
vector (`none`): this happens only when `len` has wrapped around, and the loop then
runs on far beyond the vector. -/
def prefix_lines_loop (pfx : Str) : Nat → Nat → List Str → Option (List Str)
  | 0, _, lines => some lines
  | remaining + 1, i, lines =>
    match lines.get? i with
    | some tmp => prefix_lines_loop pfx remaining (i + 1) (lines.set i (pfx ++ tmp))
    | none => none

/-- Lines 544-599 of `make_comment_block`, where `ft` is the filetype found by
`filetypes_index` and `text` the comment text, both known to be non-`NULL`. -/
def comment_block_of (ft : GeanyFiletype) (text : Str) (indent : Nat) : Outcome :=
  let frame := comment_frame ft
  let frame_start := frame.1
  let frame_end := frame.2.1
  let pfx := prefix_with_indent frame.2.2 indent
  -- add line_prefix to every line of comment_text
  let lines := g_strsplit text LF
  let len := guint_sub (to_guint (g_strv_length lines)) 1
  match prefix_lines_loop pfx len 0 lines with
  | none => Outcome.fault
  | some lines1 =>
    let tmp := g_strjoinv [LF] lines1
    -- add frame_start and frame_end
    match frame_start with
    | some fs => Outcome.value (fs ++ tmp ++ str_of frame_end)
    | none => Outcome.value (tmp ++ str_of frame_end)

/-- The function `make_comment_block (comment_text, filetype_idx, indent)`.
`filetypes_index` is the filetype lookup of `filetypes.c`; an unknown index makes
`g_return_val_if_fail` return `NULL`. A `NULL` comment text makes `g_strsplit` return
`NULL`, whose length is 0, and the loop then reads through that `NULL`. -/
def make_comment_block (filetypes_index : Int → Option GeanyFiletype)
    (comment_text : Option Str) (filetype_idx : Int) (indent : Nat) : Outcome :=
  match filetypes_index filetype_idx with
  | none => Outcome.null
  | some ft =>
    match comment_text with
    | none => Outcome.fault
    | some text => comment_block_of ft text indent

/-- What the loop and the join of `make_comment_block` make of a text, read off its
characters (a description of the code, not of the specified line rule): `pfx` comes
before every line that is ended by a line feed, and what follows the last line feed is
left as it is, also when it is a line of its own. `at_start` says that the next
character starts a line. -/
def indent_lines (pfx : Str) : Bool → Str → Str
  | _, [] => []
  | at_start, c :: cs =>
    (if at_start && (c :: cs).contains LF then pfx else []) ++
      c :: indent_lines pfx (c == LF) cs

/-- The words of the formatter's line rule: every line of the text, except a possible
trailing empty line, receives the prefix `pfx`; the line feeds stay where they are.
`at_start` says that the next character starts a line. -/
def prefix_every_line (pfx : Str) : Bool → Str → Str
  | _, [] => []
  | at_start, c :: cs =>
    (if at_start then pfx else []) ++ c :: prefix_every_line pfx (c == LF) cs

/-- All strings of a vector but the last one, each with `pfx` in front, followed by
the last one as it is. -/
def prefix_all_but_last (pfx : Str) : List Str → List Str
  | [] => []
  | [l] => [l]
  | l :: l2 :: ls => (pfx ++ l) :: prefix_all_but_last pfx (l2 :: ls)

/-! ## Placeholder substitution -/

/-- One left-to-right scan for `needle`: where it is found, `replace` is put out and
the `needle.length - 1` characters that follow its first one are skipped (`skip` counts
them down); the characters put out are not looked at again. -/
def replace_scan (needle replace : Str) : Nat → Str → Str
  | _, [] => []
  | skip + 1, _ :: t => replace_scan needle replace skip t
  | 0, c :: t =>
    if needle.isPrefixOf (c :: t) then
      replace ++ replace_scan needle replace (needle.length - 1) t
    else c :: replace_scan needle replace 0 t

/-- Modelled from the spec: `utils_string_replace_all (haystack, needle, replace)` of
`utils.c`, which is not among the sources. Every occurrence of the needle, found from
left to right, is replaced once, and the value put in is not scanned again; an empty
needle changes nothing. -/
def utils_string_replace_all (haystack needle replace : Str) : Str :=
  if needle = [] then haystack else replace_scan needle replace 0 haystack

/-- Modelled from the spec: `utils_str_replace_all (&haystack, needle, replacement)` of
`utils.c`, which is not among the sources: `utils_string_replace_all` on a `gchar *`.
An absent (`NULL`) haystack stays absent, and an absent replacement puts nothing in
the place of the needle. -/
def utils_str_replace_all (haystack : Option Str) (needle : Str)
    (replacement : Option Str) : Option Str :=
  haystack.map (fun h => utils_string_replace_all h needle (str_of replacement))

/-- The fields of `GeanyTemplatePrefs` (`template_prefs`). -/
structure GeanyTemplatePrefs where
  developer : Str
  company : Str
  mail : Str
  initials : Str
  version : Str
  year_format : Str
  date_format : Str
  datetime_format : Str

/-- Modelled from the spec: the indices of the template store (`templates.h` is not
among the sources), in the order of the spec's list of template kinds. -/
def GEANY_TEMPLATE_FILEHEADER : Int := 0

/-- Modelled from the spec: the index of the GPL notice in the template store. -/
def GEANY_TEMPLATE_GPL : Int := 1

/-- Modelled from the spec: the index of the BSD notice in the template store. -/
def GEANY_TEMPLATE_BSD : Int := 2

/-- Modelled from the spec: the index of the function description in the store. -/
def GEANY_TEMPLATE_FUNCTION : Int := 3

/-- Modelled from the spec: the index of the changelog entry in the template store. -/
def GEANY_TEMPLATE_CHANGELOG : Int := 4

/-- Scintilla's `SC_EOL_CRLF`. -/
def SC_EOL_CRLF : Int := 0

/-- Scintilla's `SC_EOL_CR`. -/
def SC_EOL_CR : Int := 1

/-- Scintilla's `SC_EOL_LF`. -/
def SC_EOL_LF : Int := 2

/-- The files of the disk: the contents found under a path, if anything is there. -/
abbrev Files := Str → Option Str

/-- The global state and the collaborators that `templates.c` reads: the preferences,
the two template stores (a slot is a string or `NULL`), the filetype table, and the
constants and functions of headers and files that are not among the sources. -/
structure Env where
  template_prefs : GeanyTemplatePrefs
  /-- The array `templates`. -/
  templates : Int → Option Str
  /-- The array `ft_templates`. -/
  ft_templates : Nat → Option Str
  /-- The filetype table: `filetypes[idx]`, and `filetypes_index (idx)`, which is
  `NULL` outside of the table. -/
  filetypes_index : Int → Option GeanyFiletype
  /-- The filetype table after `filetypes_load_config (ft_id, FALSE)`. -/
  filetypes_load_config : (Int → Option GeanyFiletype) → Int → (Int → Option GeanyFiletype)
  /-- The function `utils_get_date_time (format, NULL)` at the time of the call. -/
  utils_get_date_time : Str → Str
  /-- The macro `GEANY_STRING_UNTITLED`. -/
  GEANY_STRING_UNTITLED : Str
  /-- The macro `VERSION`. -/
  VERSION : Str
  /-- The id of the filetype `None`. -/
  GEANY_FILETYPES_NONE : Nat
  /-- The number of built-in filetypes. -/
  GEANY_MAX_BUILT_IN_FILETYPES : Nat
  /-- The preference `file_prefs.default_eol_character`. -/
  default_eol_character : Int
  /-- The function `utils_write_file (filename, text)` as a change of the disk. -/
  utils_write_file : Files → Str → Str → Files

/-- The function `templates_replace_all (text, year, date, datetime)`: the new
contents of the `GString`. -/
def templates_replace_all (env : Env) (text year date datetime : Str) : Str :=
  let text := utils_string_replace_all text "{year}".toList year
  let text := utils_string_replace_all text "{date}".toList date
  let text := utils_string_replace_all text "{datetime}".toList datetime
  let text := utils_string_replace_all text "{version}".toList env.template_prefs.version
  let text := utils_string_replace_all text "{initial}".toList env.template_prefs.initials
  let text := utils_string_replace_all text "{developer}".toList env.template_prefs.developer
  let text := utils_string_replace_all text "{mail}".toList env.template_prefs.mail
  let text := utils_string_replace_all text "{company}".toList env.template_prefs.company
  let text := utils_string_replace_all text "{untitled}".toList env.GEANY_STRING_UNTITLED
  utils_string_replace_all text "{geanyversion}".toList ("Geany ".toList ++ env.VERSION)

/-- The result of a function that returns a pointer it was given or has copied. -/
def Outcome.of_ptr (ptr : Option Str) : Outcome :=
  match ptr with
  | some s => Outcome.value s
  | none => Outcome.null

/-- The function `templates_get_template_licence (filetype_idx, licence_type)`. -/
def templates_get_template_licence (env : Env) (filetype_idx : Int) (licence_type : Int) :
    Outcome :=
  if licence_type ≠ GEANY_TEMPLATE_GPL ∧ licence_type ≠ GEANY_TEMPLATE_BSD then
    Outcome.null
  else
    make_comment_block env.filetypes_index (env.templates licence_type) filetype_idx 8

/-- GLib `g_path_get_basename (file_name)` with `/` as directory separator: the last
component of the path, without trailing separators; `.` for the empty path and `/` for
a path of separators only. -/
def g_path_get_basename (file_name : Str) : Str :=
  if file_name = [] then ['.']
  else
    let stripped := file_name.reverse.dropWhile (fun c => c == '/')
    if stripped = [] then ['/']
    else (stripped.takeWhile (fun c => c != '/')).reverse

/-- The function `templates_get_template_fileheader (filetype_idx, fname)`; `fname` may
be `NULL`. Reading `filetypes[ft_id]` outside of the table is a fault. -/
def templates_get_template_fileheader (env : Env) (filetype_idx : Int)
    (fname : Option Str) : Outcome :=
  let template := env.templates GEANY_TEMPLATE_FILEHEADER
  let date := env.utils_get_date_time env.template_prefs.datetime_format
  -- load any user extension setting
  let filetypes := env.filetypes_load_config env.filetypes_index filetype_idx
  match filetypes filetype_idx with
  | none => Outcome.fault
  | some ft =>
    let shortname :=
      match fname with
      | none =>
        match ft.extension with
        | none => env.GEANY_STRING_UNTITLED
        | some extension => env.GEANY_STRING_UNTITLED ++ ['.'] ++ extension
      | some fname => g_path_get_basename fname
    let template := utils_str_replace_all template "{filename}".toList (some shortname)
    let template := utils_str_replace_all template "{gpl}".toList
      (env.templates GEANY_TEMPLATE_GPL)
    let template := utils_str_replace_all template "{bsd}".toList
      (env.templates GEANY_TEMPLATE_BSD)
    let template := utils_str_replace_all template "{datetime}".toList (some date)
    make_comment_block filetypes template filetype_idx 8

/-- The function `get_file_template (ft)`. -/
def get_file_template (env : Env) (ft : GeanyFiletype) : Option Str :=
  if ft.id < env.GEANY_MAX_BUILT_IN_FILETYPES then env.ft_templates ft.id else none

/-- The function `templates_get_template_new_file (ft)`, for a filetype `ft` that is
not `NULL`. -/
def templates_get_template_new_file (env : Env) (ft : GeanyFiletype) : Outcome :=
  if ¬ ft.id < env.GEANY_MAX_BUILT_IN_FILETYPES then Outcome.null
  else if ft.id = env.GEANY_FILETYPES_NONE then Outcome.of_ptr (get_file_template env ft)
  else
    -- file template only used for new files
    match templates_get_template_fileheader env ft.id none with
    | Outcome.fault => Outcome.fault
    | Outcome.null =>
      Outcome.of_ptr (utils_str_replace_all (get_file_template env ft)
        "{fileheader}".toList none)
    | Outcome.value file_header =>
      Outcome.of_ptr (utils_str_replace_all (get_file_template env ft)
        "{fileheader}".toList (some file_header))

/-- GLib `g_file_test (filename, G_FILE_TEST_EXISTS)`. -/
def g_file_test_exists (files : Files) (filename : Str) : Bool := (files filename).isSome

/-- The function `create_template_file_if_necessary (filename, content)`: the disk
after the call. -/
def create_template_file_if_necessary (env : Env) (files : Files) (filename content : Str) :
    Files :=
  if ¬ g_file_test_exists files filename then
    if env.default_eol_character ≠ SC_EOL_LF then
      -- Replace the \n characters in the default template text by the proper
      -- platform-specific line ending characters.
      let eol_str := if env.default_eol_character = SC_EOL_CR then [CR] else [CR, LF]
      let tmp := utils_string_replace_all content [LF] eol_str
      env.utils_write_file files filename tmp
    else
      env.utils_write_file files filename content
  else files

/-- The words of the line ending rule: every line feed of the content becomes `eol`,
and every other character stays. -/
def convert_line_feeds (eol : Str) (content : Str) : Str :=
  content.flatMap (fun c => if c = LF then eol else [c])

/-! ## The generic tokens as a table -/

/-- The ten generic tokens of `templates_replace_all`. -/
inductive GenericToken where
  | year | date | datetime | version | initial | developer | mail | company | untitled
  | geanyversion
  deriving DecidableEq, Repr

/-- The text of a generic token. -/
def GenericToken.text : GenericToken → Str
  | .year => "{year}".toList
  | .date => "{date}".toList
  | .datetime => "{datetime}".toList
  | .version => "{version}".toList
  | .initial => "{initial}".toList
  | .developer => "{developer}".toList
  | .mail => "{mail}".toList
  | .company => "{company}".toList
  | .untitled => "{untitled}".toList
  | .geanyversion => "{geanyversion}".toList

/-- The value `templates_replace_all (text, year, date, datetime)` gives a token. -/
def GenericToken.value (env : Env) (year date datetime : Str) : GenericToken → Str
  | .year => year
  | .date => date
  | .datetime => datetime
  | .version => env.template_prefs.version
  | .initial => env.template_prefs.initials
  | .developer => env.template_prefs.developer
  | .mail => env.template_prefs.mail
  | .company => env.template_prefs.company
  | .untitled => env.GEANY_STRING_UNTITLED
  | .geanyversion => "Geany ".toList ++ env.VERSION

/-- The generic tokens in the order in which `templates_replace_all` replaces them. -/
def GenericToken.passes : List GenericToken :=
  [.year, .date, .datetime, .version, .initial, .developer, .mail, .company, .untitled,
   .geanyversion]

/-- The substitution table of the generic tokens: token text and value. -/
def generic_table (env : Env) (year date datetime : Str) : List (Str × Str) :=
  GenericToken.passes.map (fun t => (t.text, t.value env year date datetime))

/-- The words of the substitution contract, one pass over the original text from left
to right: where a token of the table starts, its value is put out and the scan goes on
behind the token (`skip` counts its remaining characters down); any other character is
copied. What is put out is never scanned. -/
def substitute_scan (table : List (Str × Str)) : Nat → Str → Str
  | _, [] => []
  | skip + 1, _ :: t => substitute_scan table skip t
  | 0, c :: t =>
    match table.find? (fun e => e.1.isPrefixOf (c :: t)) with
    | some e => e.2 ++ substitute_scan table (e.1.length - 1) t
    | none => c :: substitute_scan table 0 t

/-- The single pass `substitute (text, table)` of the substitution contract. -/
def substitute_single_pass (table : List (Str × Str)) (text : Str) : Str :=
  substitute_scan table 0 text

/-- A part of a template text: a stretch of ordinary text, or a generic token. -/
inductive Segment where
  | text (s : Str)
  | token (t : GenericToken)

/-- The template text made of the segments, each token written out. -/
def render_tokens (segs : List Segment) : Str :=
  segs.flatMap (fun seg => match seg with
    | .text s => s
    | .token t => t.text)

/-- The text made of the segments with each token replaced by its value. -/
def render_values (value : GenericToken → Str) (segs : List Segment) : Str :=
  segs.flatMap (fun seg => match seg with
    | .text s => s
    | .token t => value t)

/-- One pass seen on a segment: the token `k` becomes the text `v`. -/
def pass_segment (k : GenericToken) (v : Str) : Segment → Segment
  | .token t => if t = k then .text v else .token t
  | .text s => .text s

/-- The condition on a template text under which no pass can make a new token: no `{`
is followed, at once or after lowercase letters only, by another `{`. `inside` says
that a `{` and, since then, only lowercase letters were read. -/
def open_braces_apart : Bool → Str → Bool
  | _, [] => true
  | inside, c :: cs =>
    if c = '{' then !inside && open_braces_apart true cs
    else if c.isLower then open_braces_apart inside cs
    else open_braces_apart false cs

/-- The end of a text that no pass touches: nothing, or a `{` and lowercase letters up
to the end of the text. -/
def inert_end (tail : Str) : Prop :=
  tail = [] ∨ ∃ l : Str, tail = '{' :: l ∧ ∀ x ∈ l, x.isLower = true

/-- A stretch of text that no pass touches: it holds no `{`, or it is a `{`, lowercase
letters and one character that is neither a lowercase letter nor `{`, and is none of
the generic tokens. -/
def inert_text (s : Str) : Prop :=
  '{' ∉ s ∨
  ∃ (l : Str) (c : Char), s = '{' :: (l ++ [c]) ∧ (∀ x ∈ l, x.isLower = true) ∧
    c.isLower = false ∧ c ≠ '{' ∧ ∀ t : GenericToken, t.text ≠ s

/-! ## Sample filetypes -/

/-- A filetype with the comment delimiters of C. -/
def sample_c : GeanyFiletype :=
  { id := 1, name := "C".toList, extension := some "c".toList,
    comment_open := some "/*".toList, comment_close := some "*/".toList }

/-- A filetype with a line comment only. -/
def sample_sh : GeanyFiletype :=
  { id := 2, name := "Sh".toList, extension := some "sh".toList,
    comment_open := some "#".toList, comment_close := none }

/-- A filetype with both delimiters, the open one without `*` in second place. -/
def sample_html : GeanyFiletype :=
  { id := 3, name := "HTML".toList, extension := some "html".toList,
    comment_open := some "<!--".toList, comment_close := some "-->".toList }

/-- A filetype with a line comment of three characters. -/
def sample_rem : GeanyFiletype :=
  { id := 4, name := "Batch".toList, extension := some "bat".toList,
    comment_open := some "REM".toList, comment_close := none }

/-- The filetype `None`: no comment delimiters and no extension. -/
def sample_none : GeanyFiletype :=
  { id := 0, name := "None".toList, extension := none,
    comment_open := none, comment_close := none }

/-- A filetype lookup knowing the five sample filetypes by their ids. -/
def sample_filetypes_index (idx : Int) : Option GeanyFiletype :=
  if idx = 0 then some sample_none
  else if idx = 1 then some sample_c
  else if idx = 2 then some sample_sh
  else if idx = 3 then some sample_html
  else if idx = 4 then some sample_rem
  else none

/-- The words of the file header rule: the FileHeader text of the store with
`{filename}` replaced by `shortname`, then `{gpl}` and `{bsd}` by the licence texts of
the store and `{datetime}` by the current time in the configured format. -/
def fileheader_text (env : Env) (shortname : Str) : Option Str :=
  utils_str_replace_all
    (utils_str_replace_all
      (utils_str_replace_all
        (utils_str_replace_all (env.templates GEANY_TEMPLATE_FILEHEADER)
          "{filename}".toList (some shortname))
        "{gpl}".toList (env.templates GEANY_TEMPLATE_GPL))
      "{bsd}".toList (env.templates GEANY_TEMPLATE_BSD))
    "{datetime}".toList (some (env.utils_get_date_time env.template_prefs.datetime_format))

/-- Preferences of a sample user whose developer name is the token `{mail}`. -/
def sample_prefs : GeanyTemplatePrefs :=
  { developer := "{mail}".toList, company := "ACME".toList, mail := "X".toList,
    initials := "JD".toList, version := "1.0".toList, year_format := "%Y".toList,
    date_format := "%Y-%m-%d".toList, datetime_format := "%d.%m.%Y".toList }

/-- A sample template store. -/
def sample_templates (idx : Int) : Option Str :=
  if idx = GEANY_TEMPLATE_FILEHEADER then some "{filename}\n{gpl}".toList
  else if idx = GEANY_TEMPLATE_GPL then some "GPL\n".toList
  else if idx = GEANY_TEMPLATE_BSD then some "BSD\n".toList
  else if idx = GEANY_TEMPLATE_CHANGELOG then some "{date}  {developer}\n".toList
  else none

/-- A sample state: the sample filetypes, a clock that answers `today` for every
format, and a disk on which writing always succeeds. -/
def sample_env : Env :=
  { template_prefs := sample_prefs,
    templates := sample_templates,
    ft_templates := fun id => if id = 0 then some "{fileheader}{year}\n".toList else none,
    filetypes_index := sample_filetypes_index,
    filetypes_load_config := fun filetypes _ => filetypes,
    utils_get_date_time := fun _ => "today".toList,
    GEANY_STRING_UNTITLED := "untitled".toList,
    VERSION := "0.19".toList,
    GEANY_FILETYPES_NONE := 0,
    GEANY_MAX_BUILT_IN_FILETYPES := 5,
    default_eol_character := SC_EOL_CRLF,
    utils_write_file := fun files filename text =>
      fun path => if path = filename then some text else files path }

/-- A sample disk with one file. -/
def sample_files : Files :=
  fun path => if path = "/cfg/templates/gpl".toList then some "old".toList else none

/-- The sample state with a developer name that holds no token. -/
def sample_env_plain : Env :=
  { sample_env with
    template_prefs := { sample_prefs with developer := "Jo Doe".toList } }

/-- A sample template line: the developer token, the mail token in angle brackets. -/
def sample_segments : List Segment :=
  [.token .developer, .text " <".toList, .token .mail, .text ">\n".toList]

/-! ## The changelog entry -/

/-- The function `templates_get_template_changelog ()`. -/
def templates_get_template_changelog (env : Env) : Outcome :=
  let date := env.utils_get_date_time env.template_prefs.datetime_format
  let result := env.templates GEANY_TEMPLATE_CHANGELOG
  Outcome.of_ptr (utils_str_replace_all result "{date}".toList (some date))

/-- The sample state with a clock that tells the formats apart: the day for the date
format, day and time for the date and time format. -/
def sample_env_clock : Env :=
  { sample_env with
    utils_get_date_time := fun format =>
      if format = sample_prefs.date_format then "2009-05-01".toList
      else if format = sample_prefs.datetime_format then "01.05.2009 12:00".toList
      else "2009".toList }

/-! ## Loading the template store -/

/-- The static function `replace_all (text, year, date, datetime)`: `NULL` stays
`NULL`, any other text goes through `templates_replace_all`. -/
def replace_all (env : Env) (text : Option Str) (year date datetime : Str) : Option Str :=
  match text with
  | none => none
  | some text => some (templates_replace_all env text year date datetime)

/-- The macro `TEMPLATES_GET_FILENAME (shortname)`: the file `shortname` in the
templates directory below `configdir` (`app->configdir`); `templates_subdir` is the
macro `GEANY_TEMPLATES_SUBDIR`. -/
def TEMPLATES_GET_FILENAME (configdir templates_subdir shortname : Str) : Str :=
  configdir ++ (['/'] ++ templates_subdir ++ ['/']) ++ shortname

/-- The default text `templates_function_description`. -/
def templates_function_description : Str :=
  "\nname: {functionname}\n@param\n@return\n".toList

/-- The default text `templates_fileheader`. -/
def templates_fileheader : Str :=
  "{filename}\n\nCopyright {year} {developer} <{mail}>\n\n{gpl}".toList

/-- The default text `templates_changelog`. -/
def templates_changelog : Str := "{date}  {developer}  <{mail}>\n\n * \n\n\n".toList

/-- The template store with the slot `idx` set to `text`. -/
def set_template (templates : Int → Option Str) (idx : Int) (text : Option Str) :
    Int → Option Str :=
  fun i => if i = idx then text else templates i

/-- The function `init_general_templates (year, date, datetime)`: the disk and the
state after the call. The five template files are created where they are missing,
then read (`g_file_get_contents`, `NULL` when the file cannot be read) and put in the
store through `replace_all`. The two long licence notices `templates_gpl_notice` and
`templates_bsd_notice` are arguments. -/
def init_general_templates (env : Env) (files : Files) (configdir templates_subdir : Str)
    (templates_gpl_notice templates_bsd_notice : Str) (year date datetime : Str) :
    Files × Env :=
  let template_filename_fileheader :=
    TEMPLATES_GET_FILENAME configdir templates_subdir "fileheader".toList
  let template_filename_gpl := TEMPLATES_GET_FILENAME configdir templates_subdir "gpl".toList
  let template_filename_bsd := TEMPLATES_GET_FILENAME configdir templates_subdir "bsd".toList
  let template_filename_function :=
    TEMPLATES_GET_FILENAME configdir templates_subdir "function".toList
  let template_filename_changelog :=
    TEMPLATES_GET_FILENAME configdir templates_subdir "changelog".toList
  -- create the template files in the configuration directory, if they don't exist
  let files := create_template_file_if_necessary env files template_filename_fileheader
    templates_fileheader
  let files := create_template_file_if_necessary env files template_filename_gpl
    templates_gpl_notice
  let files := create_template_file_if_necessary env files template_filename_bsd
    templates_bsd_notice
  let files := create_template_file_if_necessary env files template_filename_function
    templates_function_description
  let files := create_template_file_if_necessary env files template_filename_changelog
    templates_changelog
  -- read the contents
  let templates := set_template env.templates GEANY_TEMPLATE_FILEHEADER
    (replace_all env (files template_filename_fileheader) year date datetime)
  let templates := set_template templates GEANY_TEMPLATE_GPL
    (replace_all env (files template_filename_gpl) year date datetime)
  let templates := set_template templates GEANY_TEMPLATE_BSD
    (replace_all env (files template_filename_bsd) year date datetime)
  let templates := set_template templates GEANY_TEMPLATE_FUNCTION
    (replace_all env (files template_filename_function) year date datetime)
  let templates := set_template templates GEANY_TEMPLATE_CHANGELOG
    (replace_all env (files template_filename_changelog) year date datetime)
  (files, { env with templates := templates })

/-- Lines 502-506 of `templates_init ()`: the year, the date and the date and time of
the moment in their configured formats, and the general templates loaded with them. -/
def templates_init_general (env : Env) (files : Files) (configdir templates_subdir : Str)
    (templates_gpl_notice templates_bsd_notice : Str) : Files × Env :=
  let year := env.utils_get_date_time env.template_prefs.year_format
  let date := env.utils_get_date_time env.template_prefs.date_format
  let datetime := env.utils_get_date_time env.template_prefs.datetime_format
  init_general_templates env files configdir templates_subdir templates_gpl_notice
    templates_bsd_notice year date datetime

/-- A sample start: an empty store, the line feed convention, the clock that tells the
formats apart, and a user whose developer name is the text `{date}`. -/
def sample_env_start : Env :=
  { sample_env_clock with
    template_prefs := { sample_prefs with developer := "{date}".toList },
    templates := fun _ => none,
    default_eol_character := SC_EOL_LF }

/-- The sample state after the general templates were loaded from an empty disk. -/
def sample_env_loaded : Env :=
  (templates_init_general sample_env_start (fun _ => none) "/cfg".toList "templates".toList
    "GPL\n".toList "BSD\n".toList).2

/-! ## The list of custom file templates -/

/-- The function `compare_filenames_by_filetype (a, b)`. The filetype a name belongs
to is found by `filetypes_detect_from_extension` (`filetypes.c`), and two strings are
compared by `utils_str_casecmp` (`utils.c`); two filetype pointers are the same when
the ids of the filetypes are. -/
def compare_filenames_by_filetype (env : Env)
    (filetypes_detect_from_extension : Str → GeanyFiletype)
    (utils_str_casecmp : Str → Str → Int) (a b : Str) : Int :=
  let ft_a := filetypes_detect_from_extension a
  let ft_b := filetypes_detect_from_extension b
  -- sort by filetype name first
  if ft_a.id ≠ ft_b.id then
    -- None filetypes should come first
    if ft_a.id = env.GEANY_FILETYPES_NONE then -1
    else if ft_b.id = env.GEANY_FILETYPES_NONE then 1
    else utils_str_casecmp ft_a.name ft_b.name
  else utils_str_casecmp a b

/-- GLib `g_slist_sort_merge (l1, l2, compare_func)`: the head of `l1` goes first
unless it compares greater than the head of `l2`. `fuel` bounds the steps; the sum of
the two lengths is enough. -/
def g_slist_sort_merge (compare_func : Str → Str → Int) : Nat → List Str → List Str → List Str
  | _, [], l2 => l2
  | _, l1, [] => l1
  | 0, l1, l2 => l1 ++ l2
  | fuel + 1, a :: l1, b :: l2 =>
    if compare_func a b ≤ 0 then a :: g_slist_sort_merge compare_func fuel l1 (b :: l2)
    else b :: g_slist_sort_merge compare_func fuel (a :: l1) l2

/-- GLib `g_slist_sort_real (list, compare_func)`: the list is cut after its first
`length / 2` nodes, and the two sorted halves are merged. `fuel` bounds the depth; the
length of the list is enough. -/
def g_slist_sort_real (compare_func : Str → Str → Int) : Nat → List Str → List Str
  | _, [] => []
  | _, [a] => [a]
  | 0, list => list
  | fuel + 1, list =>
    let l1 := list.take (list.length / 2)
    let l2 := list.drop (list.length / 2)
    g_slist_sort_merge compare_func list.length
      (g_slist_sort_real compare_func fuel l1) (g_slist_sort_real compare_func fuel l2)

/-- GLib `g_slist_sort (list, compare_func)`. -/
def g_slist_sort (list : List Str) (compare_func : Str → Str → Int) : List Str :=
  g_slist_sort_real compare_func list.length list

/-- The loop of `add_custom_template_items` that removes duplicates next to each
other: where the node after `node` holds an equal name (`utils_str_equal`) it is
removed by `utils_slist_remove_next`, and the loop goes on at the node that follows. -/
def remove_duplicates_loop : List Str → List Str
  | [] => []
  | [a] => [a]
  | a :: b :: rest =>
    if b = a then a :: remove_duplicates_loop rest
    else a :: remove_duplicates_loop (b :: rest)

/-- The function `add_custom_template_items ()`: the list it hands to
`add_file_items`, for the names `list` found in the user directory and `syslist` found
in the system directory. -/
def add_custom_template_items (env : Env)
    (filetypes_detect_from_extension : Str → GeanyFiletype)
    (utils_str_casecmp : Str → Str → Int) (list syslist : List Str) : List Str :=
  -- merge lists
  let list := list ++ syslist
  let list := g_slist_sort list
    (compare_filenames_by_filetype env filetypes_detect_from_extension utils_str_casecmp)
  -- remove duplicates (next to each other after sorting)
  remove_duplicates_loop list

/-- C `strcmp` as a sign: -1, 0 or 1. -/
def strcmp_sign : Str → Str → Int
  | [], [] => 0
  | [], _ :: _ => -1
  | _ :: _, [] => 1
  | a :: s1, b :: s2 =>
    if a.toNat < b.toNat then -1
    else if b.toNat < a.toNat then 1
    else strcmp_sign s1 s2

/-- A comparison of two strings without regard to the case of their letters, which
is what the name of `utils_str_casecmp` says: both are put in lower case and then
compared. -/
def sample_str_casecmp (s1 s2 : Str) : Int :=
  strcmp_sign (s1.map Char.toLower) (s2.map Char.toLower)

/-- A filetype detection for the samples: names that end in `c` are C sources, all
other names have the filetype `None`. -/
def sample_detect_from_extension (name : Str) : GeanyFiletype :=
  if name.getLast? = some 'c' then sample_c else sample_none

/-! ## Lemmas on splitting, joining and the prefix loop -/

theorem split_pieces_ne_nil (d : Char) (s : Str) : split_pieces d s ≠ [] := by
  cases s with
  | nil => simp [split_pieces]
  | cons c cs =>
    unfold split_pieces
    split
    · simp
    · split <;> simp

theorem split_pieces_length_le (d : Char) (s : Str) :
    (split_pieces d s).length ≤ s.length + 1 := by
  induction s with
  | nil => simp [split_pieces]
  | cons c cs ih =>
    unfold split_pieces
    split
    · simp; omega
    · split
      · simp
      · next p ps h => rw [h] at ih; simp at ih ⊢; omega

theorem guint_sub_one (n : Nat) (h1 : 1 ≤ n) (h2 : n ≤ G_MAXUINT) :
    guint_sub (to_guint n) 1 = n - 1 := by
  have h : to_guint n = n := by
    unfold to_guint G_MAXUINT at *
    omega
  rw [h, guint_sub, if_pos h1]

theorem prefix_lines_loop_append (pfx : Str) (k : Nat) :
    ∀ (pre post : List Str), k ≤ post.length →
      prefix_lines_loop pfx k pre.length (pre ++ post) =
        some (pre ++ (post.take k).map (fun l => pfx ++ l) ++ post.drop k) := by
  induction k with
  | zero => intro pre post _; simp [prefix_lines_loop]
  | succ k ih =>
    intro pre post h
    cases post with
    | nil => simp at h
    | cons p post =>
      have hk : k ≤ post.length := by simpa using h
      have hget : (pre ++ p :: post).get? pre.length = some p := by
        rw [List.get?_eq_getElem?, List.getElem?_append_right (le_refl _)]
        simp
      have hset : (pre ++ p :: post).set pre.length (pfx ++ p) = (pre ++ [pfx ++ p]) ++ post := by
        simp
      have hlen : pre.length + 1 = (pre ++ [pfx ++ p]).length := by simp
      rw [prefix_lines_loop, hget]
      simp only []
      rw [hset, hlen, ih _ _ hk]
      simp

theorem take_map_drop_eq_prefix_all_but_last (pfx : Str) :
    ∀ (lines : List Str), lines ≠ [] →
      (lines.take (lines.length - 1)).map (fun l => pfx ++ l) ++ lines.drop (lines.length - 1)
        = prefix_all_but_last pfx lines := by
  intro lines
  induction lines with
  | nil => intro h; exact absurd rfl h
  | cons l ls ih =>
    intro _
    cases ls with
    | nil => simp [prefix_all_but_last]
    | cons l2 ls =>
      have := ih (by simp)
      simp only [List.length_cons, Nat.add_sub_cancel] at this ⊢
      simp only [List.take_succ_cons, List.drop_succ_cons, List.map_cons, List.cons_append,
        prefix_all_but_last]
      rw [this]

theorem prefix_lines_loop_all_but_last (pfx : Str) (lines : List Str) (h : lines ≠ []) :
    prefix_lines_loop pfx (lines.length - 1) 0 lines = some (prefix_all_but_last pfx lines) := by
  have := prefix_lines_loop_append pfx (lines.length - 1) [] lines (by omega)
  simp only [List.length_nil, List.nil_append] at this
  rw [this, take_map_drop_eq_prefix_all_but_last pfx lines h]

theorem g_strjoinv_cons_cons (sep l l2 : Str) (ls : List Str) :
    g_strjoinv sep (l :: l2 :: ls) = l ++ sep ++ g_strjoinv sep (l2 :: ls) := rfl

theorem prefix_all_but_last_ne_nil (pfx : Str) (lines : List Str) (h : lines ≠ []) :
    prefix_all_but_last pfx lines ≠ [] := by
  cases lines with
  | nil => exact absurd rfl h
  | cons l ls => cases ls <;> simp [prefix_all_but_last]

theorem g_strjoinv_cons_of_ne_nil (sep l : Str) (ls : List Str) (h : ls ≠ []) :
    g_strjoinv sep (l :: ls) = l ++ sep ++ g_strjoinv sep ls := by
  cases ls with
  | nil => exact absurd rfl h
  | cons l2 ls => rfl

/-- Joining the split pieces of a text, all but the last one prefixed, is the text
with the prefix put before every line feed terminated line. The three parts are
proved together: a text whose first line is already begun, a text at a line start,
and the test for a remaining line feed. -/
theorem join_split_indent (pfx : Str) (cs : Str) :
    (∀ p ps, split_pieces LF cs = p :: ps →
        g_strjoinv [LF] (p :: prefix_all_but_last pfx ps) = indent_lines pfx false cs) ∧
    g_strjoinv [LF] (prefix_all_but_last pfx (split_pieces LF cs)) = indent_lines pfx true cs ∧
    (cs.contains LF = true ↔ ∃ p q ps, split_pieces LF cs = p :: q :: ps) := by
  induction cs with
  | nil =>
    refine ⟨?_, ?_, ?_⟩
    · intro p ps h
      simp [split_pieces] at h
      obtain ⟨h1, h2⟩ := h
      subst h1; subst h2
      simp [prefix_all_but_last, g_strjoinv, indent_lines]
    · simp [split_pieces, prefix_all_but_last, g_strjoinv, indent_lines]
    · simp [split_pieces]
  | cons c cs ih =>
    obtain ⟨iha, ihb, ihc⟩ := ih
    obtain ⟨p1, ps1, hsp⟩ := List.exists_cons_of_ne_nil (split_pieces_ne_nil LF cs)
    by_cases hc : c = LF
    · subst hc
      have hs : split_pieces LF (LF :: cs) = [] :: p1 :: ps1 := by
        simp [split_pieces, hsp]
      have hne : prefix_all_but_last pfx (p1 :: ps1) ≠ [] :=
        prefix_all_but_last_ne_nil pfx _ (by simp)
      rw [hsp] at ihb
      refine ⟨?_, ?_, ?_⟩
      · intro p ps h
        rw [hs] at h
        simp only [List.cons.injEq] at h
        obtain ⟨h1, h2⟩ := h
        subst h1; subst h2
        rw [g_strjoinv_cons_of_ne_nil _ _ _ hne, ihb]
        simp [indent_lines]
      · rw [hs]
        simp only [prefix_all_but_last]
        rw [g_strjoinv_cons_of_ne_nil _ _ _ hne, ihb]
        simp [indent_lines]
      · rw [hs]
        simp
    · have hs : split_pieces LF (c :: cs) = (c :: p1) :: ps1 := by
        simp [split_pieces, hsp, hc]
      have hcont : (c :: cs).contains LF = cs.contains LF := by
        have : (LF == c) = false := by
          simp only [beq_eq_false_iff_ne, ne_eq]
          exact fun h => hc h.symm
        simp [List.contains, List.elem, this]
      have ha := iha p1 ps1 hsp
      refine ⟨?_, ?_, ?_⟩
      · intro p ps h
        rw [hs] at h
        simp only [List.cons.injEq] at h
        obtain ⟨h1, h2⟩ := h
        subst h1; subst h2
        have hcl : (c == LF) = false := by simpa using hc
        simp only [indent_lines, Bool.false_and, hcl]
        rw [← ha]
        cases ps1 with
        | nil => simp [prefix_all_but_last, g_strjoinv]
        | cons q r =>
          have hne : prefix_all_but_last pfx (q :: r) ≠ [] :=
            prefix_all_but_last_ne_nil pfx _ (by simp)
          rw [g_strjoinv_cons_of_ne_nil _ _ _ hne, g_strjoinv_cons_of_ne_nil _ _ _ hne]
          simp
      · rw [hs]
        have hcl : (c == LF) = false := by simpa using hc
        simp only [indent_lines, Bool.true_and, hcl, hcont]
        rw [← ha]
        cases ps1 with
        | nil =>
          have hno : cs.contains LF = false := by
            cases hcs : cs.contains LF with
            | false => rfl
            | true =>
              obtain ⟨p, q, ps, h⟩ := ihc.mp hcs
              rw [hsp] at h
              simp at h
          rw [hno]
          simp [prefix_all_but_last, g_strjoinv]
        | cons q r =>
          have hyes : cs.contains LF = true := ihc.mpr ⟨p1, q, r, hsp⟩
          have hne : prefix_all_but_last pfx (q :: r) ≠ [] :=
            prefix_all_but_last_ne_nil pfx _ (by simp)
          simp only [prefix_all_but_last, hyes, if_true]
          rw [g_strjoinv_cons_of_ne_nil _ _ _ hne, g_strjoinv_cons_of_ne_nil _ _ _ hne]
          simp
      · rw [hs, hcont, ihc, hsp]
        constructor
        · rintro ⟨p, q, ps, h⟩
          simp only [List.cons.injEq] at h
          obtain ⟨_, h2⟩ := h
          exact ⟨c :: p1, q, ps, by rw [h2]⟩
        · rintro ⟨p, q, ps, h⟩
          simp only [List.cons.injEq] at h
          obtain ⟨_, h2⟩ := h
          exact ⟨p1, q, ps, by rw [h2]⟩

theorem g_strsplit_of_ne_nil (text : Str) (h : text ≠ []) :
    g_strsplit text LF = split_pieces LF text := by
  simp [g_strsplit, h]

theorem make_comment_block_some (filetypes_index : Int → Option GeanyFiletype)
    (ft : GeanyFiletype) (text : Str) (filetype_idx : Int) (indent : Nat)
    (hft : filetypes_index filetype_idx = some ft) :
    make_comment_block filetypes_index (some text) filetype_idx indent =
      comment_block_of ft text indent := by
  unfold make_comment_block
  rw [hft]

/-- On a non-empty text of fewer than `2^32 - 1` characters the comment block is
`frame_start`, the text with the prefix before every line feed terminated line, and
`frame_end`. -/
theorem comment_block_of_eq (ft : GeanyFiletype) (text : Str) (indent : Nat)
    (hne : text ≠ []) (hlen : text.length < G_MAXUINT) :
    comment_block_of ft text indent =
      Outcome.value (str_of (comment_frame ft).1 ++
        indent_lines (prefix_with_indent (comment_frame ft).2.2 indent) true text ++
        str_of (comment_frame ft).2.1) := by
  have hpieces : split_pieces LF text ≠ [] := split_pieces_ne_nil LF text
  have h1 : 1 ≤ (split_pieces LF text).length := by
    cases hsp : split_pieces LF text with
    | nil => exact absurd hsp hpieces
    | cons a l => simp
  have h2 : (split_pieces LF text).length ≤ G_MAXUINT :=
    le_trans (split_pieces_length_le LF text) hlen
  have hloop := prefix_lines_loop_all_but_last
    (prefix_with_indent (comment_frame ft).2.2 indent) (split_pieces LF text) hpieces
  have hjoin := (join_split_indent (prefix_with_indent (comment_frame ft).2.2 indent) text).2.1
  have hlen1 : guint_sub (to_guint (g_strv_length (g_strsplit text LF))) 1 =
      (split_pieces LF text).length - 1 := by
    rw [g_strsplit_of_ne_nil text hne]
    exact guint_sub_one _ h1 h2
  unfold comment_block_of
  simp only []
  rw [hlen1, g_strsplit_of_ne_nil text hne, hloop]
  simp only []
  rw [hjoin]
  cases (comment_frame ft).1 <;> simp [str_of]

/-- On a non-empty text of fewer than `2^32 - 1` characters `make_comment_block`
returns `frame_start`, the text with the prefix before every line feed terminated line,
and `frame_end`. -/
theorem make_comment_block_eq (filetypes_index : Int → Option GeanyFiletype)
    (ft : GeanyFiletype) (text : Str) (filetype_idx : Int) (indent : Nat)
    (hft : filetypes_index filetype_idx = some ft) (hne : text ≠ [])
    (hlen : text.length < G_MAXUINT) :
    make_comment_block filetypes_index (some text) filetype_idx indent =
      Outcome.value (str_of (comment_frame ft).1 ++
        indent_lines (prefix_with_indent (comment_frame ft).2.2 indent) true text ++
        str_of (comment_frame ft).2.1) := by
  rw [make_comment_block_some _ ft _ _ _ hft, comment_block_of_eq ft text indent hne hlen]

theorem indent_lines_nil (b : Bool) (text : Str) : indent_lines [] b text = text := by
  induction text generalizing b with
  | nil => rfl
  | cons c cs ih => simp [indent_lines, ih]

/-- The frame of a filetype with both delimiters whose open delimiter has no `*` in
second place: the delimiters on lines of their own, and no text before the lines. -/
theorem comment_frame_plain (ft : GeanyFiletype)
    (ho : NZV ft.comment_open = true) (hc : NZV ft.comment_close = true)
    (hs : (str_of ft.comment_open).get? 1 ≠ some '*') :
    comment_frame ft =
      (some (str_of ft.comment_open ++ [LF]), some (str_of ft.comment_close ++ [LF]), []) := by
  have hsecond : ((str_of (some (str_of ft.comment_open ++ [LF]))).get? 1 == some '*')
      = false := by
    cases hop : ft.comment_open with
    | none => simp [hop, NZV] at ho
    | some o =>
      rw [hop] at hs
      cases o with
      | nil => simp [hop, NZV] at ho
      | cons a t =>
        cases t with
        | nil => simp [str_of, LF]
        | cons b t2 =>
          simp only [str_of, Option.getD_some, List.get?_cons_succ, List.get?_cons_zero,
            List.cons_append] at hs ⊢
          simpa using hs
  unfold comment_frame
  simp only [ho, hc, ↓reduceIte, hsecond, Bool.and_false, Bool.false_eq_true]

/-- The frame of the C-like fallback. -/
theorem comment_frame_fallback (ft : GeanyFiletype) (ho : NZV ft.comment_open = false) :
    comment_frame ft = (some ['/', '*', LF], some [SP, '*', '/', LF], [SP, '*']) := by
  have h1 : (NZV (some ['/', '*', LF]) &&
      (str_of (some ['/', '*', LF])).get? 1 == some '*') = true := by decide
  unfold comment_frame
  simp only [ho, Bool.false_eq_true, ↓reduceIte, h1]
  rfl

/-- The frame of the delimiters `/*` and `*/`. -/
theorem comment_frame_c_like (ft : GeanyFiletype) (ho : ft.comment_open = some ['/', '*'])
    (hc : ft.comment_close = some ['*', '/']) :
    comment_frame ft = (some ['/', '*', LF], some [SP, '*', '/', LF], [SP, '*']) := by
  unfold comment_frame
  simp only [ho, hc]
  rfl

theorem prefix_with_indent_nil (indent : Nat) (h : indent ≤ G_MAXUINT) :
    prefix_with_indent [] indent = List.replicate indent SP := by
  have : to_guint (if indent > 0 then indent - 0 else 0) = indent := by
    unfold to_guint G_MAXUINT at *
    split <;> omega
  simp only [prefix_with_indent, List.length_nil, this, g_strnfill, List.nil_append]

/-- The length of the prefix built by lines 574-578: `indent` when `indent` exceeds the
length of the line prefix, and otherwise twice the length of the line prefix. -/
theorem prefix_with_indent_length (line_pfx : Str) (indent : Nat)
    (hp : line_pfx.length ≤ G_MAXUINT) (hi : indent ≤ G_MAXUINT) :
    (prefix_with_indent line_pfx indent).length =
      if indent > line_pfx.length then indent else 2 * line_pfx.length := by
  have : to_guint (if indent > line_pfx.length then indent - line_pfx.length
      else line_pfx.length) =
      if indent > line_pfx.length then indent - line_pfx.length else line_pfx.length := by
    unfold to_guint G_MAXUINT at *
    split <;> omega
  simp only [prefix_with_indent, this, g_strnfill, List.length_append, List.length_replicate]
  split <;> omega

/-! ## The comment block formatter: claims C1 to C4 and C6 -/

/-- C1 (code defect): with the line prefix `REM` and indent 3, so that the prefix is as
long as the indent, `prefix_with_indent` still appends three spaces: the prefix before each
line is `REM` and three spaces, of length 6, and the formatted line is `REM   x`. -/
theorem C1_prefix_padded_at_small_indent :
    prefix_with_indent "REM".toList 3 = "REM   ".toList ∧
    (prefix_with_indent "REM".toList 3).length ≠ max 3 "REM".toList.length ∧
    make_comment_block sample_filetypes_index (some "x\n".toList) 4 3 =
      Outcome.value "REM   x\n".toList := by
  decide

/-- C2 (code defect): for open `#`, no close and indent 2 the text of the two lines `x`
and `y` comes back with the prefix before `x` only: the piece after the last line feed
is never prefixed, also when it is not empty. -/
theorem C2_last_line_not_prefixed :
    make_comment_block sample_filetypes_index (some "x\ny".toList) 2 2 =
      Outcome.value "# x\ny".toList := by
  decide

/-- C3 (counterexample): for the delimiters of C, the text `hello` with a line feed
and indent 8, the result is not the string with a single space after the star. -/
theorem C3_counterexample :
    make_comment_block sample_filetypes_index (some "hello\n".toList) 1 8 ≠
      Outcome.value "/*\n * hello\n */\n".toList := by
  decide

/-- C3 (amended): for every filetype with open `/*` and close `*/`, the text `hello`
with a line feed and indent 8 give the block whose middle line is ` *`, six spaces
(the prefix is 8 characters wide) and `hello`. -/
theorem C3_c_block_hello (filetypes_index : Int → Option GeanyFiletype)
    (ft : GeanyFiletype) (filetype_idx : Int)
    (hft : filetypes_index filetype_idx = some ft)
    (ho : ft.comment_open = some "/*".toList) (hc : ft.comment_close = some "*/".toList) :
    make_comment_block filetypes_index (some "hello\n".toList) filetype_idx 8 =
      Outcome.value "/*\n *      hello\n */\n".toList := by
  rw [make_comment_block_eq filetypes_index ft _ filetype_idx 8 hft (by decide) (by decide),
    comment_frame_c_like ft ho hc]
  decide

/-- C3 at the sample filetype with the delimiters of C. -/
theorem C3_c_block_hello_witness :
    sample_filetypes_index 1 = some sample_c ∧
    make_comment_block sample_filetypes_index (some "hello\n".toList) 1 8 =
      Outcome.value "/*\n *      hello\n */\n".toList :=
  ⟨by decide, C3_c_block_hello sample_filetypes_index sample_c 1 (by decide) (by decide)
    (by decide)⟩

/-- C4 (counterexample): for the delimiters `<!--` and `-->`, the text `a` with a line
feed and indent 8, the result is not open, line feed, text, close, line feed: the line
`a` has eight spaces before it. -/
theorem C4_counterexample :
    make_comment_block sample_filetypes_index (some "a\n".toList) 3 8 ≠
      Outcome.value ("<!--".toList ++ [LF] ++ "a\n".toList ++ "-->".toList ++ [LF]) ∧
    make_comment_block sample_filetypes_index (some "a\n".toList) 3 8 =
      Outcome.value "<!--\n        a\n-->\n".toList := by
  decide

theorem indent_lines_cons (pfx : Str) (b : Bool) (c : Char) (cs : Str) :
    indent_lines pfx b (c :: cs) =
      (if b && (c :: cs).contains LF then pfx else []) ++
        c :: indent_lines pfx (c == LF) cs := rfl

theorem prefix_every_line_cons (pfx : Str) (b : Bool) (c : Char) (cs : Str) :
    prefix_every_line pfx b (c :: cs) =
      (if b then pfx else []) ++ c :: prefix_every_line pfx (c == LF) cs := rfl

/-- On a text that ends in a line feed the code prefixes every line. -/
theorem indent_lines_append_line_feed (pfx : Str) (body : Str) :
    ∀ (b : Bool), indent_lines pfx b (body ++ [LF]) = prefix_every_line pfx b (body ++ [LF]) := by
  induction body with
  | nil =>
    intro b
    simp [indent_lines, prefix_every_line]
  | cons c cs ih =>
    intro b
    have hcont : (c :: (cs ++ [LF])).contains LF = true := by simp
    rw [List.cons_append, indent_lines_cons, prefix_every_line_cons, hcont, Bool.and_true, ih]

theorem exists_body_of_getLast (text : Str) (h : text.getLast? = some LF) :
    ∃ body, text = body ++ [LF] := by
  rcases List.eq_nil_or_concat text with h0 | ⟨body, c, hc⟩
  · rw [h0] at h
    simp at h
  · rw [hc] at h
    simp [Option.or] at h
    exact ⟨body, by rw [hc, List.concat_eq_append, h]⟩

theorem prefix_every_line_nil (b : Bool) (text : Str) : prefix_every_line [] b text = text := by
  induction text generalizing b with
  | nil => rfl
  | cons c cs ih => simp [prefix_every_line, ih]

/-- C4 (amended): for a filetype with both delimiters non-empty and no `*` in second
place of the open delimiter, a text that ends in a line feed and any indent, the result
is open, line feed, the text with `indent` spaces before every line, close, line feed;
with indent 0 it is open, line feed, the text unchanged, close, line feed. -/
theorem C4_block_lines_indented (filetypes_index : Int → Option GeanyFiletype)
    (ft : GeanyFiletype) (filetype_idx : Int) (text : Str) (indent : Nat)
    (hft : filetypes_index filetype_idx = some ft)
    (ho : NZV ft.comment_open = true) (hc : NZV ft.comment_close = true)
    (hs : (str_of ft.comment_open).get? 1 ≠ some '*')
    (hend : text.getLast? = some LF) (hlen : text.length < G_MAXUINT)
    (hind : indent ≤ G_MAXUINT) :
    make_comment_block filetypes_index (some text) filetype_idx indent =
      Outcome.value (str_of ft.comment_open ++ [LF] ++
        prefix_every_line (List.replicate indent SP) true text ++
        str_of ft.comment_close ++ [LF]) ∧
    make_comment_block filetypes_index (some text) filetype_idx 0 =
      Outcome.value (str_of ft.comment_open ++ [LF] ++ text ++
        str_of ft.comment_close ++ [LF]) := by
  obtain ⟨body, hbody⟩ := exists_body_of_getLast text hend
  have hne : text ≠ [] := by rw [hbody]; simp
  have key : ∀ n : Nat, n ≤ G_MAXUINT →
      make_comment_block filetypes_index (some text) filetype_idx n =
        Outcome.value (str_of ft.comment_open ++ [LF] ++
          prefix_every_line (List.replicate n SP) true text ++
          str_of ft.comment_close ++ [LF]) := by
    intro n hn
    have h := make_comment_block_eq filetypes_index ft text filetype_idx n hft hne hlen
    rw [comment_frame_plain ft ho hc hs] at h
    simp only [prefix_with_indent_nil n hn, str_of, Option.getD_some] at h
    rw [h, hbody, indent_lines_append_line_feed]
    simp [str_of]
  refine ⟨key indent hind, ?_⟩
  rw [key 0 (Nat.zero_le _)]
  simp [prefix_every_line_nil]

/-- C4 at the sample filetype with the delimiters `<!--` and `-->`, a text of two lines
and indent 8. -/
theorem C4_block_lines_indented_witness :
    make_comment_block sample_filetypes_index (some "a\nb\n".toList) 3 8 =
      Outcome.value (str_of sample_html.comment_open ++ [LF] ++
        prefix_every_line (List.replicate 8 SP) true "a\nb\n".toList ++
        str_of sample_html.comment_close ++ [LF]) ∧
    make_comment_block sample_filetypes_index (some "a\nb\n".toList) 3 0 =
      Outcome.value (str_of sample_html.comment_open ++ [LF] ++ "a\nb\n".toList ++
        str_of sample_html.comment_close ++ [LF]) :=
  C4_block_lines_indented sample_filetypes_index sample_html 3 "a\nb\n".toList 8
    (by decide) (by decide) (by decide) (by decide) (by decide) (by decide) (by decide)

/-- C6: a filetype without an open delimiter (`NULL` or empty) gets, for every comment
text and indent, the same result as a filetype with open `/*` and close `*/`. -/
theorem C6_fallback_same_as_c_delimiters (filetypes_index : Int → Option GeanyFiletype)
    (ft1 ft2 : GeanyFiletype) (idx1 idx2 : Int) (comment_text : Option Str) (indent : Nat)
    (h1 : filetypes_index idx1 = some ft1) (h2 : filetypes_index idx2 = some ft2)
    (hno : NZV ft1.comment_open = false)
    (ho : ft2.comment_open = some "/*".toList) (hc : ft2.comment_close = some "*/".toList) :
    make_comment_block filetypes_index comment_text idx1 indent =
      make_comment_block filetypes_index comment_text idx2 indent := by
  unfold make_comment_block
  rw [h1, h2]
  cases comment_text with
  | none => rfl
  | some text =>
    show comment_block_of ft1 text indent = comment_block_of ft2 text indent
    unfold comment_block_of
    rw [comment_frame_fallback ft1 hno, comment_frame_c_like ft2 ho hc]

/-- C6 at the sample filetype without delimiters and the sample filetype of C. -/
theorem C6_fallback_same_as_c_delimiters_witness :
    make_comment_block sample_filetypes_index (some "x\ny\n".toList) 0 8 =
      make_comment_block sample_filetypes_index (some "x\ny\n".toList) 1 8 :=
  C6_fallback_same_as_c_delimiters sample_filetypes_index sample_none sample_c 0 1
    (some "x\ny\n".toList) 8 (by decide) (by decide) (by decide) (by decide) (by decide)

/-! ## The retrieval functions: claims C7 to C10 -/

/-- C7: for a kind other than GPL and BSD the licence query returns `NULL` whatever
the store and the filetype table hold; for GPL and BSD it returns what
`make_comment_block` makes of the store text of that kind at indent 8. -/
theorem C7_licence_kinds (env : Env) (filetype_idx licence_type : Int) :
    (licence_type ≠ GEANY_TEMPLATE_GPL → licence_type ≠ GEANY_TEMPLATE_BSD →
      templates_get_template_licence env filetype_idx licence_type = Outcome.null) ∧
    (licence_type = GEANY_TEMPLATE_GPL ∨ licence_type = GEANY_TEMPLATE_BSD →
      templates_get_template_licence env filetype_idx licence_type =
        make_comment_block env.filetypes_index (env.templates licence_type) filetype_idx 8) := by
  constructor
  · intro h1 h2
    simp [templates_get_template_licence, h1, h2]
  · intro h
    unfold templates_get_template_licence
    rw [if_neg]
    intro hn
    rcases h with h | h
    · exact hn.1 h
    · exact hn.2 h

/-- C7 at the sample state: the function description is no licence, the GPL notice is one. -/
theorem C7_licence_kinds_witness :
    templates_get_template_licence sample_env 1 GEANY_TEMPLATE_FUNCTION = Outcome.null ∧
    templates_get_template_licence sample_env 1 GEANY_TEMPLATE_GPL =
      make_comment_block sample_env.filetypes_index (sample_env.templates GEANY_TEMPLATE_GPL)
        1 8 :=
  ⟨(C7_licence_kinds sample_env 1 GEANY_TEMPLATE_FUNCTION).1 (by decide) (by decide),
   (C7_licence_kinds sample_env 1 GEANY_TEMPLATE_GPL).2 (Or.inl rfl)⟩

/-- C8: the file header is the comment block, at indent 8 and for the filetype as
configured, of the FileHeader text with `{filename}`, `{gpl}`, `{bsd}` and `{datetime}`
replaced, where `{filename}` is the basename of the path when a file name is given,
`untitled.` and the extension when none is given and the filetype has an extension, and
`untitled` alone when it has none. -/
theorem C8_fileheader_filename (env : Env) (filetype_idx : Int) (ft : GeanyFiletype)
    (hft : env.filetypes_load_config env.filetypes_index filetype_idx filetype_idx = some ft) :
    (∀ fname : Str,
      templates_get_template_fileheader env filetype_idx (some fname) =
        make_comment_block (env.filetypes_load_config env.filetypes_index filetype_idx)
          (fileheader_text env (g_path_get_basename fname)) filetype_idx 8) ∧
    (∀ extension : Str, ft.extension = some extension →
      templates_get_template_fileheader env filetype_idx none =
        make_comment_block (env.filetypes_load_config env.filetypes_index filetype_idx)
          (fileheader_text env (env.GEANY_STRING_UNTITLED ++ ['.'] ++ extension))
          filetype_idx 8) ∧
    (ft.extension = none →
      templates_get_template_fileheader env filetype_idx none =
        make_comment_block (env.filetypes_load_config env.filetypes_index filetype_idx)
          (fileheader_text env env.GEANY_STRING_UNTITLED) filetype_idx 8) := by
  refine ⟨?_, ?_, ?_⟩
  · intro fname
    simp only [templates_get_template_fileheader, hft, fileheader_text]
  · intro extension hext
    simp only [templates_get_template_fileheader, hft, hext, fileheader_text]
  · intro hext
    simp only [templates_get_template_fileheader, hft, hext, fileheader_text]

/-- C8 at the sample state: a path, no path with the extension `sh`, no path and no extension. -/
theorem C8_fileheader_filename_witness :
    templates_get_template_fileheader sample_env 2 (some "/home/u/run.sh".toList) =
      Outcome.value "#       run.sh\n#       GPL\n".toList ∧
    templates_get_template_fileheader sample_env 2 none =
      Outcome.value "#       untitled.sh\n#       GPL\n".toList ∧
    templates_get_template_fileheader sample_env 0 none =
      Outcome.value "/*\n *      untitled\n *      GPL\n */\n".toList := by
  have h2 := C8_fileheader_filename sample_env 2 sample_sh (by decide)
  have h0 := C8_fileheader_filename sample_env 0 sample_none (by decide)
  refine ⟨?_, ?_, ?_⟩
  · rw [h2.1]
    decide
  · rw [h2.2.1 "sh".toList (by decide)]
    decide
  · rw [h0.2.2 (by decide)]
    decide

/-- C9: for the filetype `None` the new file template is the stored text of that
filetype as it is, tokens included, or `NULL` when nothing is stored: neither the file
header nor any substitution nor a comment block is applied. -/
theorem C9_none_template_verbatim (env : Env) (ft : GeanyFiletype)
    (hnone : ft.id = env.GEANY_FILETYPES_NONE)
    (hmax : env.GEANY_FILETYPES_NONE < env.GEANY_MAX_BUILT_IN_FILETYPES) :
    templates_get_template_new_file env ft =
      Outcome.of_ptr (env.ft_templates env.GEANY_FILETYPES_NONE) := by
  have hlt : ft.id < env.GEANY_MAX_BUILT_IN_FILETYPES := by rw [hnone]; exact hmax
  simp only [templates_get_template_new_file, get_file_template, hlt, not_true_eq_false,
    if_false, if_true, hnone]
  simp [hmax]

/-- C9 at the sample state, whose stored template of the filetype `None` holds two tokens. -/
theorem C9_none_template_verbatim_witness :
    templates_get_template_new_file sample_env sample_none =
      Outcome.of_ptr (some "{fileheader}{year}\n".toList) :=
  C9_none_template_verbatim sample_env sample_none (by decide) (by decide)

theorem replace_scan_line_feed (eol content : Str) :
    replace_scan [LF] eol 0 content = convert_line_feeds eol content := by
  induction content with
  | nil => rfl
  | cons c t ih =>
    by_cases hc : c = LF
    · subst hc
      simp [replace_scan, convert_line_feeds, List.isPrefixOf] at ih ⊢
      exact ih
    · have hb : (LF == c) = false := by
        simp only [beq_eq_false_iff_ne, ne_eq]
        exact fun h => hc h.symm
      simp [replace_scan, convert_line_feeds, List.isPrefixOf, hb, hc] at ih ⊢
      exact ih

/-- C10: an existing file leaves the disk as it is; for a missing file the content
is written as it is under the line feed convention, and with every line feed replaced
by a carriage return, or by carriage return and line feed, and nothing else changed,
under the CR and the CRLF convention. -/
theorem C10_create_template_file (env : Env) (files : Files) (filename content : Str) :
    (g_file_test_exists files filename = true →
      create_template_file_if_necessary env files filename content = files) ∧
    (g_file_test_exists files filename = false →
      (env.default_eol_character = SC_EOL_LF →
        create_template_file_if_necessary env files filename content =
          env.utils_write_file files filename content) ∧
      (env.default_eol_character = SC_EOL_CR →
        create_template_file_if_necessary env files filename content =
          env.utils_write_file files filename (convert_line_feeds [CR] content)) ∧
      (env.default_eol_character = SC_EOL_CRLF →
        create_template_file_if_necessary env files filename content =
          env.utils_write_file files filename (convert_line_feeds [CR, LF] content))) := by
  refine ⟨?_, ?_⟩
  · intro h
    simp [create_template_file_if_necessary, h]
  · intro h
    refine ⟨?_, ?_, ?_⟩
    · intro he
      simp [create_template_file_if_necessary, h, he]
    · intro he
      have hne : env.default_eol_character ≠ SC_EOL_LF := by rw [he]; decide
      have hlf : ([LF] : Str) ≠ [] := by simp
      unfold create_template_file_if_necessary
      rw [if_pos (by simp [h]), if_pos hne, if_pos he]
      simp only [utils_string_replace_all, if_neg hlf, replace_scan_line_feed]
    · intro he
      have hne : env.default_eol_character ≠ SC_EOL_LF := by rw [he]; decide
      have hcr : env.default_eol_character ≠ SC_EOL_CR := by rw [he]; decide
      have hlf : ([LF] : Str) ≠ [] := by simp
      unfold create_template_file_if_necessary
      rw [if_pos (by simp [h]), if_pos hne, if_neg hcr]
      simp only [utils_string_replace_all, if_neg hlf, replace_scan_line_feed]

/-- C10 at the sample disk under the CRLF convention: an existing and a missing file. -/
theorem C10_create_template_file_witness :
    create_template_file_if_necessary sample_env sample_files "/cfg/templates/gpl".toList
        "a\nb\n".toList = sample_files ∧
    create_template_file_if_necessary sample_env sample_files "/cfg/templates/bsd".toList
        "a\nb\n".toList =
      sample_env.utils_write_file sample_files "/cfg/templates/bsd".toList
        (convert_line_feeds [CR, LF] "a\nb\n".toList) :=
  ⟨(C10_create_template_file sample_env sample_files "/cfg/templates/gpl".toList
      "a\nb\n".toList).1 (by decide),
   ((C10_create_template_file sample_env sample_files "/cfg/templates/bsd".toList
      "a\nb\n".toList).2 (by decide)).2.2 (by decide)⟩

/-! ## Placeholder substitution: claim C5 -/

theorem templates_replace_all_eq_foldl (env : Env) (text year date datetime : Str) :
    templates_replace_all env text year date datetime =
      GenericToken.passes.foldl
        (fun acc t => utils_string_replace_all acc t.text (t.value env year date datetime))
        text := rfl

theorem generic_token_shape (t : GenericToken) :
    ∃ body, t.text = '{' :: body ∧ '{' ∉ body := by
  cases t <;> exact ⟨_, rfl, by decide⟩

theorem generic_tokens_prefix_free (t k : GenericToken) (h : t ≠ k) :
    ¬ t.text <+: k.text := by
  cases t <;> cases k <;> first | exact absurd rfl h | decide

theorem generic_token_mem_passes (t : GenericToken) : t ∈ GenericToken.passes := by
  cases t <;> decide

theorem isPrefixOf_append_false (a b r : Str) (h1 : ¬ a <+: b) (h2 : ¬ b <+: a) :
    a.isPrefixOf (b ++ r) = false := by
  cases h : a.isPrefixOf (b ++ r) with
  | false => rfl
  | true =>
    have hp : a <+: b ++ r := List.isPrefixOf_iff_prefix.mp h
    rcases List.prefix_or_prefix_of_prefix hp (List.prefix_append b r) with h3 | h3
    · exact absurd h3 h1
    · exact absurd h3 h2

theorem replace_scan_cons_zero (needle v : Str) (c : Char) (t : Str) :
    replace_scan needle v 0 (c :: t) =
      if needle.isPrefixOf (c :: t) then v ++ replace_scan needle v (needle.length - 1) t
      else c :: replace_scan needle v 0 t := rfl

theorem replace_scan_cons_succ (needle v : Str) (n : Nat) (c : Char) (t : Str) :
    replace_scan needle v (n + 1) (c :: t) = replace_scan needle v n t := rfl

theorem replace_scan_skip (needle v a r : Str) :
    replace_scan needle v a.length (a ++ r) = replace_scan needle v 0 r := by
  induction a with
  | nil => rfl
  | cons c t ih =>
    rw [List.length_cons, List.cons_append, replace_scan_cons_succ]
    exact ih

theorem replace_scan_plain (nb v s r : Str) (hs : '{' ∉ s) :
    replace_scan ('{' :: nb) v 0 (s ++ r) = s ++ replace_scan ('{' :: nb) v 0 r := by
  induction s with
  | nil => rfl
  | cons c t ih =>
    have hc : ('{' == c) = false := by
      simp only [beq_eq_false_iff_ne, ne_eq]
      intro h
      exact hs (by rw [h]; exact List.mem_cons_self _ _)
    have ht : '{' ∉ t := fun h => hs (List.mem_cons_of_mem _ h)
    have hp : List.isPrefixOf ('{' :: nb) (c :: (t ++ r)) = false := by
      simp [List.isPrefixOf, hc]
    rw [List.cons_append, replace_scan_cons_zero, hp, if_neg (by simp), ih ht,
      List.cons_append]

theorem replace_scan_token_same (k : GenericToken) (v r : Str) :
    replace_scan k.text v 0 (k.text ++ r) = v ++ replace_scan k.text v 0 r := by
  obtain ⟨body, hb, _⟩ := generic_token_shape k
  have hp : List.isPrefixOf k.text (k.text ++ r) = true :=
    List.isPrefixOf_iff_prefix.mpr (List.prefix_append _ _)
  rw [hb] at hp ⊢
  rw [List.cons_append] at hp ⊢
  rw [replace_scan_cons_zero, hp, if_pos rfl, List.length_cons, Nat.add_sub_cancel,
    replace_scan_skip]

theorem replace_scan_token_other (k t : GenericToken) (h : t ≠ k) (v r : Str) :
    replace_scan k.text v 0 (t.text ++ r) = t.text ++ replace_scan k.text v 0 r := by
  have hp : List.isPrefixOf k.text (t.text ++ r) = false :=
    isPrefixOf_append_false _ _ _ (generic_tokens_prefix_free k t (fun e => h e.symm))
      (generic_tokens_prefix_free t k h)
  obtain ⟨kb, hkb, _⟩ := generic_token_shape k
  obtain ⟨tb, htb, htn⟩ := generic_token_shape t
  rw [hkb, htb] at hp ⊢
  rw [List.cons_append] at hp ⊢
  rw [replace_scan_cons_zero, hp, if_neg (by simp), replace_scan_plain kb v tb r htn,
    List.cons_append]

/-- A run of characters with a property, ended by a character without it, is read off
a text in one way only. -/
theorem run_unique (P : Char → Bool) :
    ∀ (a b : Str) (x y : Char) (u v : Str), (∀ z ∈ a, P z = true) → (∀ z ∈ b, P z = true) →
      P x = false → P y = false → a ++ x :: u = b ++ y :: v → a = b ∧ x = y := by
  intro a
  induction a with
  | nil =>
    intro b x y u v _ hb hx _ h
    cases b with
    | nil =>
      simp only [List.nil_append, List.cons.injEq] at h
      exact ⟨rfl, h.1⟩
    | cons z b =>
      simp only [List.nil_append, List.cons_append, List.cons.injEq] at h
      have hz := hb z (List.mem_cons_self _ _)
      rw [← h.1, hx] at hz
      exact absurd hz (by simp)
  | cons w a ih =>
    intro b x y u v ha hb hx hy h
    cases b with
    | nil =>
      simp only [List.nil_append, List.cons_append, List.cons.injEq] at h
      have hw := ha w (List.mem_cons_self _ _)
      rw [h.1, hy] at hw
      exact absurd hw (by simp)
    | cons z b =>
      simp only [List.cons_append, List.cons.injEq] at h
      have := ih b x y u v (fun q hq => ha q (List.mem_cons_of_mem _ hq))
        (fun q hq => hb q (List.mem_cons_of_mem _ hq)) hx hy h.2
      exact ⟨by rw [h.1, this.1], this.2⟩

theorem generic_token_name (t : GenericToken) :
    ∃ name, t.text = '{' :: (name ++ ['}']) ∧ ∀ x ∈ name, x.isLower = true := by
  cases t
  · exact ⟨"year".toList, rfl, by decide⟩
  · exact ⟨"date".toList, rfl, by decide⟩
  · exact ⟨"datetime".toList, rfl, by decide⟩
  · exact ⟨"version".toList, rfl, by decide⟩
  · exact ⟨"initial".toList, rfl, by decide⟩
  · exact ⟨"developer".toList, rfl, by decide⟩
  · exact ⟨"mail".toList, rfl, by decide⟩
  · exact ⟨"company".toList, rfl, by decide⟩
  · exact ⟨"untitled".toList, rfl, by decide⟩
  · exact ⟨"geanyversion".toList, rfl, by decide⟩

/-- No token starts where a `{` opens a run of letters that ends otherwise than the
token does. -/
theorem no_token_at_other_placeholder (l : Str) (c : Char) (hl : ∀ x ∈ l, x.isLower = true)
    (hc : c.isLower = false) (hne : ∀ t : GenericToken, t.text ≠ '{' :: (l ++ [c]))
    (k : GenericToken) (r : Str) :
    k.text.isPrefixOf ('{' :: (l ++ [c]) ++ r) = false := by
  cases h : k.text.isPrefixOf ('{' :: (l ++ [c]) ++ r) with
  | false => rfl
  | true =>
    exfalso
    obtain ⟨u, hu⟩ := List.isPrefixOf_iff_prefix.mp h
    obtain ⟨name, hname, hlow⟩ := generic_token_name k
    rw [hname] at hu
    simp only [List.cons_append, List.append_assoc, List.singleton_append,
      List.cons.injEq, true_and] at hu
    have hbrace : ('}' : Char).isLower = false := by decide
    obtain ⟨h1, h2⟩ := run_unique Char.isLower name l '}' c u r hlow hl hbrace hc hu
    apply hne k
    rw [hname, h1, h2]

theorem not_mem_of_lower (l : Str) (c : Char) (hl : ∀ x ∈ l, x.isLower = true)
    (hc : c ≠ '{') : '{' ∉ l ++ [c] := by
  intro hmem
  rcases List.mem_append.mp hmem with h | h
  · have := hl _ h
    exact absurd this (by decide)
  · rw [List.mem_singleton] at h
    exact hc h.symm

/-- A pass copies an inert stretch of text. -/
theorem replace_scan_inert (k : GenericToken) (v s r : Str) (hs : inert_text s) :
    replace_scan k.text v 0 (s ++ r) = s ++ replace_scan k.text v 0 r := by
  obtain ⟨kb, hkb, _⟩ := generic_token_shape k
  rcases hs with hs | ⟨l, c, hsl, hl, hc, hcb, hne⟩
  · rw [hkb]
    exact replace_scan_plain kb v s r hs
  · have hp := no_token_at_other_placeholder l c hl hc (fun t => hsl ▸ hne t) k r
    rw [hsl]
    rw [List.cons_append] at hp ⊢
    rw [replace_scan_cons_zero, hp, if_neg (by simp), hkb,
      replace_scan_plain kb v (l ++ [c]) r (not_mem_of_lower l c hl hcb), List.cons_append]

theorem render_tokens_cons (seg : Segment) (segs : List Segment) :
    render_tokens (seg :: segs) =
      (match seg with
        | .text s => s
        | .token t => t.text) ++ render_tokens segs := by
  simp [render_tokens]

theorem render_values_cons (value : GenericToken → Str) (seg : Segment)
    (segs : List Segment) :
    render_values value (seg :: segs) =
      (match seg with
        | .text s => s
        | .token t => value t) ++ render_values value segs := by
  simp [render_values]

/-- One pass over a text made of segments, and an end, replaces the segments of its
token. -/
theorem replace_scan_render (k : GenericToken) (v : Str) (segs : List Segment) (tail : Str)
    (h : ∀ s, Segment.text s ∈ segs → inert_text s) :
    replace_scan k.text v 0 (render_tokens segs ++ tail) =
      render_tokens (segs.map (pass_segment k v)) ++ replace_scan k.text v 0 tail := by
  induction segs with
  | nil => rfl
  | cons seg segs ih =>
    have ih1 := ih (fun s hs => h s (List.mem_cons_of_mem _ hs))
    cases seg with
    | text s =>
      have hs : inert_text s := h s (List.mem_cons_self _ _)
      rw [List.map_cons, render_tokens_cons, render_tokens_cons]
      simp only [pass_segment]
      rw [List.append_assoc, List.append_assoc, ← ih1, replace_scan_inert k v s _ hs]
    | token t =>
      rw [List.map_cons, render_tokens_cons, render_tokens_cons]
      by_cases htk : t = k
      · subst htk
        simp only [pass_segment, if_true]
        rw [List.append_assoc, List.append_assoc, ← ih1, replace_scan_token_same]
      · simp only [pass_segment, htk, if_false]
        rw [List.append_assoc, List.append_assoc, ← ih1, replace_scan_token_other k t htk]

theorem pass_segment_keeps_plain (k : GenericToken) (v : Str) (hv : '{' ∉ v)
    (segs : List Segment) (h : ∀ s, Segment.text s ∈ segs → inert_text s) :
    ∀ s, Segment.text s ∈ segs.map (pass_segment k v) → inert_text s := by
  intro s hs
  rw [List.mem_map] at hs
  obtain ⟨seg, hseg, heq⟩ := hs
  cases seg with
  | text s1 =>
    simp only [pass_segment, Segment.text.injEq] at heq
    subst heq
    exact h _ hseg
  | token t =>
    by_cases htk : t = k
    · simp only [pass_segment, htk, if_true, Segment.text.injEq] at heq
      subst heq
      exact Or.inl hv
    · simp [pass_segment, htk] at heq

/-- The passes over a text made of segments, and an end they leave alone, one after the
other. -/
theorem passes_render (value : GenericToken → Str) (hv : ∀ t, '{' ∉ value t) (tail : Str)
    (htail : ∀ (k : GenericToken) (v : Str), replace_scan k.text v 0 tail = tail)
    (ks : List GenericToken) :
    ∀ (segs : List Segment), (∀ s, Segment.text s ∈ segs → inert_text s) →
      ks.foldl (fun acc t => utils_string_replace_all acc t.text (value t))
          (render_tokens segs ++ tail) =
        render_tokens (ks.foldl (fun acc t => acc.map (pass_segment t (value t))) segs) ++
          tail := by
  induction ks with
  | nil => intro segs _; rfl
  | cons k ks ih =>
    intro segs h
    have hne : k.text ≠ [] := by
      obtain ⟨kb, hkb, _⟩ := generic_token_shape k
      rw [hkb]
      simp
    rw [List.foldl_cons, List.foldl_cons, utils_string_replace_all, if_neg hne,
      replace_scan_render k (value k) segs tail h, htail]
    exact ih _ (pass_segment_keeps_plain k (value k) (hv k) segs h)

theorem foldl_map_segments (value : GenericToken → Str) (ks : List GenericToken) :
    ∀ (segs : List Segment),
      ks.foldl (fun acc t => acc.map (pass_segment t (value t))) segs =
        segs.map (fun seg => ks.foldl (fun a t => pass_segment t (value t) a) seg) := by
  induction ks with
  | nil => intro segs; simp
  | cons k ks ih =>
    intro segs
    rw [List.foldl_cons, ih, List.map_map]
    rfl

theorem all_passes_segment (value : GenericToken → Str) (seg : Segment) :
    GenericToken.passes.foldl (fun a t => pass_segment t (value t) a) seg =
      (match seg with
        | .text s => Segment.text s
        | .token t => Segment.text (value t)) := by
  cases seg with
  | text s => rfl
  | token t => cases t <;> rfl

theorem all_passes_render (value : GenericToken → Str) (segs : List Segment) :
    render_tokens
        (GenericToken.passes.foldl (fun acc t => acc.map (pass_segment t (value t))) segs) =
      render_values value segs := by
  rw [foldl_map_segments]
  induction segs with
  | nil => rfl
  | cons seg segs ih =>
    rw [List.map_cons, render_tokens_cons, render_values_cons, ih, all_passes_segment]
    cases seg <;> rfl

theorem substitute_scan_cons_zero (table : List (Str × Str)) (c : Char) (t : Str) :
    substitute_scan table 0 (c :: t) =
      match table.find? (fun e => e.1.isPrefixOf (c :: t)) with
      | some e => e.2 ++ substitute_scan table (e.1.length - 1) t
      | none => c :: substitute_scan table 0 t := rfl

theorem substitute_scan_cons_succ (table : List (Str × Str)) (n : Nat) (c : Char) (t : Str) :
    substitute_scan table (n + 1) (c :: t) = substitute_scan table n t := rfl

theorem substitute_scan_skip (table : List (Str × Str)) (a r : Str) :
    substitute_scan table a.length (a ++ r) = substitute_scan table 0 r := by
  induction a with
  | nil => rfl
  | cons c t ih =>
    rw [List.length_cons, List.cons_append, substitute_scan_cons_succ]
    exact ih

theorem generic_table_find_plain (env : Env) (year date datetime : Str) (c : Char) (r : Str)
    (hc : c ≠ '{') :
    (generic_table env year date datetime).find? (fun e => e.1.isPrefixOf (c :: r)) = none := by
  rw [List.find?_eq_none]
  intro e he
  rw [generic_table, List.mem_map] at he
  obtain ⟨t, _, rfl⟩ := he
  obtain ⟨tb, htb, _⟩ := generic_token_shape t
  have hb : ('{' == c) = false := by
    simp only [beq_eq_false_iff_ne, ne_eq]
    exact fun h => hc h.symm
  simp [htb, List.isPrefixOf, hb]

theorem find_unique (q : GenericToken → Bool) (t : GenericToken)
    (hq : ∀ x, q x = true ↔ x = t) :
    ∀ (l : List GenericToken), t ∈ l → l.find? q = some t := by
  intro l
  induction l with
  | nil => intro h; simp at h
  | cons x l ih =>
    intro h
    by_cases hx : q x = true
    · rw [List.find?_cons_of_pos _ hx, (hq x).mp hx]
    · rw [List.find?_cons_of_neg _ hx]
      apply ih
      rcases List.mem_cons.mp h with h1 | h1
      · exact absurd ((hq x).mpr h1.symm) hx
      · exact h1

theorem generic_table_find_token (env : Env) (year date datetime : Str) (t : GenericToken)
    (r : Str) :
    (generic_table env year date datetime).find? (fun e => e.1.isPrefixOf (t.text ++ r)) =
      some (t.text, t.value env year date datetime) := by
  have hq : ∀ x : GenericToken, x.text.isPrefixOf (t.text ++ r) = true ↔ x = t := by
    intro x
    constructor
    · intro hx
      by_contra hne
      have := isPrefixOf_append_false x.text t.text r (generic_tokens_prefix_free x t hne)
        (generic_tokens_prefix_free t x (fun e => hne e.symm))
      rw [this] at hx
      exact Bool.false_ne_true hx
    · intro hx
      rw [hx]
      exact List.isPrefixOf_iff_prefix.mpr (List.prefix_append _ _)
  rw [generic_table, List.find?_map]
  have := find_unique (fun x => x.text.isPrefixOf (t.text ++ r)) t hq GenericToken.passes
    (generic_token_mem_passes t)
  simp only [Function.comp_def]
  rw [this]
  rfl

theorem substitute_scan_plain (env : Env) (year date datetime : Str) (s r : Str)
    (hs : '{' ∉ s) :
    substitute_scan (generic_table env year date datetime) 0 (s ++ r) =
      s ++ substitute_scan (generic_table env year date datetime) 0 r := by
  induction s with
  | nil => rfl
  | cons c t ih =>
    have hc : c ≠ '{' := by
      intro h
      exact hs (by rw [h]; exact List.mem_cons_self _ _)
    have ht : '{' ∉ t := fun h => hs (List.mem_cons_of_mem _ h)
    rw [List.cons_append, substitute_scan_cons_zero,
      generic_table_find_plain env year date datetime c (t ++ r) hc]
    simp only []
    rw [ih ht, List.cons_append]

theorem substitute_scan_token (env : Env) (year date datetime : Str) (t : GenericToken)
    (r : Str) :
    substitute_scan (generic_table env year date datetime) 0 (t.text ++ r) =
      t.value env year date datetime ++
        substitute_scan (generic_table env year date datetime) 0 r := by
  have hf := generic_table_find_token env year date datetime t r
  obtain ⟨tb, htb, _⟩ := generic_token_shape t
  rw [htb] at hf ⊢
  rw [List.cons_append] at hf ⊢
  rw [substitute_scan_cons_zero, hf]
  simp only [List.length_cons, Nat.add_sub_cancel]
  rw [substitute_scan_skip]

/-- The single pass copies an inert stretch of text. -/
theorem substitute_scan_inert (env : Env) (year date datetime : Str) (s r : Str)
    (hs : inert_text s) :
    substitute_scan (generic_table env year date datetime) 0 (s ++ r) =
      s ++ substitute_scan (generic_table env year date datetime) 0 r := by
  rcases hs with hs | ⟨l, c, hsl, hl, hc, hcb, hne⟩
  · exact substitute_scan_plain env year date datetime s r hs
  · have hfind : (generic_table env year date datetime).find?
        (fun e => e.1.isPrefixOf ('{' :: (l ++ [c] ++ r))) = none := by
      rw [List.find?_eq_none]
      intro e he
      rw [generic_table, List.mem_map] at he
      obtain ⟨t, _, rfl⟩ := he
      have hp := no_token_at_other_placeholder l c hl hc (fun t => hsl ▸ hne t) t r
      rw [List.cons_append] at hp
      simp only [hp, Bool.false_eq_true, not_false_eq_true]
    rw [hsl, List.cons_append, substitute_scan_cons_zero, hfind]
    simp only []
    rw [substitute_scan_plain env year date datetime (l ++ [c]) r
      (not_mem_of_lower l c hl hcb), List.cons_append]

/-- The single pass over a text made of segments, and an end, puts the value of each
token in its place. -/
theorem substitute_scan_render (env : Env) (year date datetime : Str) (segs : List Segment)
    (tail : Str) (h : ∀ s, Segment.text s ∈ segs → inert_text s) :
    substitute_scan (generic_table env year date datetime) 0 (render_tokens segs ++ tail) =
      render_values (fun t => t.value env year date datetime) segs ++
        substitute_scan (generic_table env year date datetime) 0 tail := by
  induction segs with
  | nil => rfl
  | cons seg segs ih =>
    have ih1 := ih (fun s hs => h s (List.mem_cons_of_mem _ hs))
    rw [render_tokens_cons, render_values_cons]
    cases seg with
    | text s =>
      have hs : inert_text s := h s (List.mem_cons_self _ _)
      simp only []
      rw [List.append_assoc, List.append_assoc,
        substitute_scan_inert env year date datetime s _ hs, ih1]
    | token t =>
      simp only []
      rw [List.append_assoc, List.append_assoc, substitute_scan_token, ih1]

/-- C5 (counterexample): with the developer name `{mail}` and the mail `X`, the text
`{developer}` becomes `X`: the later pass for `{mail}` substitutes inside the value
the pass for `{developer}` has put in, where one pass over the original text gives
`{mail}`. -/
theorem C5_counterexample :
    templates_replace_all sample_env "{developer}".toList "2009".toList "2009-05-01".toList
        "01.05.2009".toList = "X".toList ∧
    templates_replace_all sample_env "{developer}".toList "2009".toList "2009-05-01".toList
        "01.05.2009".toList ≠ "{mail}".toList ∧
    substitute_single_pass
        (generic_table sample_env "2009".toList "2009-05-01".toList "01.05.2009".toList)
        "{developer}".toList = "{mail}".toList := by
  decide

/-- An inert end is copied by every pass and by the single pass. -/
theorem inert_end_fixed (tail : Str) (h : inert_end tail) :
    (∀ (k : GenericToken) (v : Str), replace_scan k.text v 0 tail = tail) ∧
    (∀ (env : Env) (year date datetime : Str),
      substitute_scan (generic_table env year date datetime) 0 tail = tail) := by
  rcases h with h | ⟨l, hl, hlow⟩
  · rw [h]
    exact ⟨fun _ _ => rfl, fun _ _ _ _ => rfl⟩
  · have hbrace : '{' ∉ l := fun hm => absurd (hlow _ hm) (by decide)
    have hno : ∀ k : GenericToken, k.text.isPrefixOf ('{' :: l) = false := by
      intro k
      cases hk : k.text.isPrefixOf ('{' :: l) with
      | false => rfl
      | true =>
        exfalso
        obtain ⟨u, hu⟩ := List.isPrefixOf_iff_prefix.mp hk
        obtain ⟨name, hname, _⟩ := generic_token_name k
        rw [hname] at hu
        simp only [List.cons_append, List.append_assoc, List.singleton_append,
          List.cons.injEq, true_and] at hu
        have hmem : '}' ∈ l := by
          rw [← hu]
          simp
        exact absurd (hlow _ hmem) (by decide)
    constructor
    · intro k v
      obtain ⟨kb, hkb, _⟩ := generic_token_shape k
      have h1 : replace_scan ('{' :: kb) v 0 l = l := by
        have h0 := replace_scan_plain kb v l [] hbrace
        rw [List.append_nil] at h0
        rw [h0]
        exact List.append_nil l
      rw [hl, replace_scan_cons_zero, hno k, if_neg (by simp), hkb, h1]
    · intro env year date datetime
      have hfind : (generic_table env year date datetime).find?
          (fun e => e.1.isPrefixOf ('{' :: l)) = none := by
        rw [List.find?_eq_none]
        intro e he
        rw [generic_table, List.mem_map] at he
        obtain ⟨t, _, rfl⟩ := he
        simp only [hno t, Bool.false_eq_true, not_false_eq_true]
      have h1 : substitute_scan (generic_table env year date datetime) 0 l = l := by
        have h0 := substitute_scan_plain env year date datetime l [] hbrace
        rw [List.append_nil] at h0
        rw [h0]
        exact List.append_nil l
      rw [hl, substitute_scan_cons_zero, hfind]
      simp only []
      rw [h1]

/-- On a text made of inert stretches, generic tokens and an inert end, and for values
without `{`, the ten passes give the text with each token replaced by its value,
which is also what the single pass gives. -/
theorem single_pass_on_segments (env : Env) (year date datetime : Str)
    (segs : List Segment) (tail : Str)
    (hsegs : ∀ s, Segment.text s ∈ segs → inert_text s) (htail : inert_end tail)
    (hvals : ∀ t : GenericToken, '{' ∉ t.value env year date datetime) :
    templates_replace_all env (render_tokens segs ++ tail) year date datetime =
      substitute_single_pass (generic_table env year date datetime)
        (render_tokens segs ++ tail) ∧
    templates_replace_all env (render_tokens segs ++ tail) year date datetime =
      render_values (fun t => t.value env year date datetime) segs ++ tail := by
  obtain ⟨hfix1, hfix2⟩ := inert_end_fixed tail htail
  have h1 : templates_replace_all env (render_tokens segs ++ tail) year date datetime =
      render_values (fun t => t.value env year date datetime) segs ++ tail := by
    rw [templates_replace_all_eq_foldl,
      passes_render (fun t => t.value env year date datetime) hvals tail hfix1
        GenericToken.passes segs hsegs,
      all_passes_render]
  refine ⟨?_, h1⟩
  rw [h1, substitute_single_pass,
    substitute_scan_render env year date datetime segs tail hsegs, hfix2]

/-- The sample template line under the sample state with plain values. -/
theorem single_pass_on_segments_sample :
    templates_replace_all sample_env_plain (render_tokens sample_segments) "2009".toList
        "2009-05-01".toList "01.05.2009".toList = "Jo Doe <X>\n".toList := by
  decide

theorem open_braces_apart_inside (cs : Str) (h : open_braces_apart true cs = true) :
    (∀ x ∈ cs, x.isLower = true) ∨
    ∃ (l : Str) (c : Char) (rest : Str), cs = l ++ c :: rest ∧ (∀ x ∈ l, x.isLower = true) ∧
      c.isLower = false ∧ c ≠ '{' ∧ open_braces_apart false rest = true := by
  induction cs with
  | nil => exact Or.inl (by simp)
  | cons c cs ih =>
    by_cases hb : c = '{'
    · simp [open_braces_apart, hb] at h
    · by_cases hlow : c.isLower = true
      · simp only [open_braces_apart, hb, if_false, hlow, if_true] at h
        rcases ih h with hall | ⟨l, c1, rest, h1, h2, h3, h4, h5⟩
        · left
          intro x hx
          rcases List.mem_cons.mp hx with hx | hx
          · rw [hx]; exact hlow
          · exact hall x hx
        · right
          refine ⟨c :: l, c1, rest, by rw [h1, List.cons_append], ?_, h3, h4, h5⟩
          intro x hx
          rcases List.mem_cons.mp hx with hx | hx
          · rw [hx]; exact hlow
          · exact h2 x hx
      · simp only [open_braces_apart, hb, if_false, hlow, Bool.false_eq_true] at h
        exact Or.inr ⟨[], c, cs, rfl, by simp, by simpa using hlow, hb, h⟩

/-- A text whose open braces stand apart is made of inert stretches, generic tokens and
an inert end. -/
theorem segments_of_text (n : Nat) :
    ∀ (text : Str), text.length ≤ n → open_braces_apart false text = true →
      ∃ segs tail, (∀ s, Segment.text s ∈ segs → inert_text s) ∧ inert_end tail ∧
        render_tokens segs ++ tail = text := by
  induction n with
  | zero =>
    intro text hlen _
    have : text = [] := List.length_eq_zero.mp (Nat.le_zero.mp hlen)
    exact ⟨[], [], by simp, Or.inl rfl, by rw [this]; rfl⟩
  | succ n ih =>
    intro text hlen h
    cases text with
    | nil => exact ⟨[], [], by simp, Or.inl rfl, rfl⟩
    | cons c cs =>
      have hcs : cs.length ≤ n := by simpa using hlen
      by_cases hb : c = '{'
      · have hin : open_braces_apart true cs = true := by
          simpa [open_braces_apart, hb] using h
        rcases open_braces_apart_inside cs hin with hall | ⟨l, c1, rest, h1, h2, h3, h4, h5⟩
        · exact ⟨[], '{' :: cs, by simp, Or.inr ⟨cs, rfl, hall⟩, by rw [hb]; rfl⟩
        · have hrest : rest.length ≤ n := by
            rw [h1] at hcs
            simp only [List.length_append, List.length_cons] at hcs
            omega
          obtain ⟨segs, tail, hsegs, htail, hrender⟩ := ih rest hrest h5
          by_cases htok : ∃ t : GenericToken, t.text = '{' :: (l ++ [c1])
          · obtain ⟨t, ht⟩ := htok
            refine ⟨Segment.token t :: segs, tail, ?_, htail, ?_⟩
            · intro s hs
              rcases List.mem_cons.mp hs with hs | hs
              · exact absurd hs (by simp)
              · exact hsegs s hs
            · rw [render_tokens_cons, List.append_assoc, hrender, hb, h1]
              simp only [ht, List.cons_append, List.append_assoc, List.singleton_append,
                List.nil_append]
          · refine ⟨Segment.text ('{' :: (l ++ [c1])) :: segs, tail, ?_, htail, ?_⟩
            · intro s hs
              rcases List.mem_cons.mp hs with hs | hs
              · simp only [Segment.text.injEq] at hs
                rw [hs]
                exact Or.inr ⟨l, c1, rfl, h2, h3, h4, fun t ht => htok ⟨t, ht⟩⟩
              · exact hsegs s hs
            · rw [render_tokens_cons, List.append_assoc, hrender, hb, h1]
              simp only [List.cons_append, List.append_assoc, List.singleton_append,
                List.nil_append]
      · have hout : open_braces_apart false cs = true := by
          by_cases hlow : c.isLower = true
          · simpa [open_braces_apart, hb, hlow] using h
          · simpa [open_braces_apart, hb, hlow] using h
        obtain ⟨segs, tail, hsegs, htail, hrender⟩ := ih cs hcs hout
        refine ⟨Segment.text [c] :: segs, tail, ?_, htail, ?_⟩
        · intro s hs
          rcases List.mem_cons.mp hs with hs | hs
          · simp only [Segment.text.injEq] at hs
            rw [hs]
            exact Or.inl (by simpa using fun h => hb h.symm)
          · exact hsegs s hs
        · rw [render_tokens_cons, List.append_assoc, hrender]
          rfl

/-- C5 (amended): for values none of which holds a `{`, and a text in which no `{` is
followed, at once or after lowercase letters only, by another `{`, the ten passes of
`templates_replace_all` give what the single pass over the original text gives: each
occurrence of a generic token replaced by its value, and every other character, other
placeholders included, as it is. -/
theorem C5_single_pass_for_plain_values (env : Env) (year date datetime : Str)
    (text : Str)
    (htext : open_braces_apart false text = true)
    (hvals : ∀ t : GenericToken, '{' ∉ t.value env year date datetime) :
    templates_replace_all env text year date datetime =
      substitute_single_pass (generic_table env year date datetime) text := by
  obtain ⟨segs, tail, hsegs, htail, hrender⟩ :=
    segments_of_text text.length text (le_refl _) htext
  rw [← hrender]
  exact (single_pass_on_segments env year date datetime segs tail hsegs htail hvals).1

/-- C5 at the default file header, which holds the tokens `{filename}` and `{gpl}` of
other passes, under the sample state with plain values. -/
theorem C5_single_pass_for_plain_values_witness :
    templates_replace_all sample_env_plain templates_fileheader "2009".toList
        "2009-05-01".toList "01.05.2009".toList =
      substitute_single_pass
        (generic_table sample_env_plain "2009".toList "2009-05-01".toList "01.05.2009".toList)
        templates_fileheader :=
  C5_single_pass_for_plain_values sample_env_plain "2009".toList "2009-05-01".toList
    "01.05.2009".toList templates_fileheader (by decide) (by intro t; cases t <;> decide)

/-- The default file header under the sample state with plain values: the tokens of
other passes stay. -/
theorem templates_replace_all_fileheader_sample :
    templates_replace_all sample_env_plain templates_fileheader "2009".toList
        "2009-05-01".toList "01.05.2009".toList =
      "{filename}\n\nCopyright 2009 Jo Doe <X>\n\n{gpl}".toList := by
  decide

/-- Why the text has its condition: in `{d`, `{year}`, `e}` a `{` stands right before
the letters of an open placeholder, and the year `at` makes the token `{date}` for the
next pass, which the single pass over the original text does not see. -/
theorem nested_placeholder_sample :
    open_braces_apart false (['{', 'd'] ++ "{year}".toList ++ ['e', '}']) = false ∧
    templates_replace_all sample_env_plain (['{', 'd'] ++ "{year}".toList ++ ['e', '}'])
      "at".toList "2009-05-01".toList "01.05.2009".toList = "2009-05-01".toList ∧
    substitute_single_pass
      (generic_table sample_env_plain "at".toList "2009-05-01".toList "01.05.2009".toList)
      (['{', 'd'] ++ "{year}".toList ++ ['e', '}']) = "{date}".toList := by
  decide

/-! ## The changelog entry and the loop bound: claims C12 and C13 -/

/-- C12 (code defect): the changelog entry gets, for `{date}`, the current time in
the date and time format, not in the date format that `{date}` stands for in the
generic pass and in the function description. On a new configuration directory and
with the developer name `{date}`, loading the templates leaves the store text with the
day and a `{date}` from the developer name, and the changelog query puts day and time
there, where the date format gives the day. -/
theorem C12_changelog_date_in_datetime_format :
    sample_env_loaded.templates GEANY_TEMPLATE_CHANGELOG =
      some "2009-05-01  {date}  <X>\n\n * \n\n\n".toList ∧
    templates_get_template_changelog sample_env_loaded =
      Outcome.value "2009-05-01  01.05.2009 12:00  <X>\n\n * \n\n\n".toList ∧
    Outcome.of_ptr (utils_str_replace_all
        (sample_env_loaded.templates GEANY_TEMPLATE_CHANGELOG) "{date}".toList
        (some (sample_env_loaded.utils_get_date_time
          sample_env_loaded.template_prefs.date_format))) =
      Outcome.value "2009-05-01  2009-05-01  <X>\n\n * \n\n\n".toList := by
  decide

/-- C13 (code defect): the empty comment text splits into no line at all, the bound
`g_strv_length (lines) - 1` of the loop wraps around to the largest `guint`, which
exceeds the number of lines, and the loop leaves the vector: for every filetype and
indent the behaviour of `make_comment_block` on the empty text is undefined. -/
theorem C13_empty_text_bound_wraps :
    g_strv_length (g_strsplit [] LF) = 0 ∧
    guint_sub (to_guint (g_strv_length (g_strsplit [] LF))) 1 = G_MAXUINT ∧
    g_strv_length (g_strsplit [] LF) <
      guint_sub (to_guint (g_strv_length (g_strsplit [] LF))) 1 ∧
    (∀ (pfx : Str), prefix_lines_loop pfx G_MAXUINT 0 (g_strsplit [] LF) = none) ∧
    (∀ (ft : GeanyFiletype) (indent : Nat), comment_block_of ft [] indent = Outcome.fault) ∧
    make_comment_block sample_filetypes_index (some []) 1 8 = Outcome.fault := by
  refine ⟨by decide, by decide, by decide, fun _ => rfl, fun _ _ => rfl, by decide⟩

/-! ## The fuel of the merge sort is never used up -/

theorem g_slist_sort_merge_nil_left (cmp : Str → Str → Int) (fuel : Nat) (l2 : List Str) :
    g_slist_sort_merge cmp fuel [] l2 = l2 := by
  cases fuel <;> cases l2 <;> rfl

theorem g_slist_sort_merge_nil_right (cmp : Str → Str → Int) (fuel : Nat) (l1 : List Str) :
    g_slist_sort_merge cmp fuel l1 [] = l1 := by
  cases fuel <;> cases l1 <;> rfl

theorem g_slist_sort_merge_cons (cmp : Str → Str → Int) (fuel : Nat) (a b : Str)
    (l1 l2 : List Str) :
    g_slist_sort_merge cmp (fuel + 1) (a :: l1) (b :: l2) =
      if cmp a b ≤ 0 then a :: g_slist_sort_merge cmp fuel l1 (b :: l2)
      else b :: g_slist_sort_merge cmp fuel (a :: l1) l2 := rfl

/-- With fuel for every node of the two lists the merge does not depend on it. -/
theorem g_slist_sort_merge_fuel (cmp : Str → Str → Int) (f1 : Nat) :
    ∀ (f2 : Nat) (l1 l2 : List Str), l1.length + l2.length ≤ f1 →
      l1.length + l2.length ≤ f2 →
      g_slist_sort_merge cmp f1 l1 l2 = g_slist_sort_merge cmp f2 l1 l2 := by
  induction f1 with
  | zero =>
    intro f2 l1 l2 h1 _
    cases l1 with
    | nil => rw [g_slist_sort_merge_nil_left, g_slist_sort_merge_nil_left]
    | cons a l1 => simp at h1
  | succ f1 ih =>
    intro f2 l1 l2 h1 h2
    cases l1 with
    | nil => rw [g_slist_sort_merge_nil_left, g_slist_sort_merge_nil_left]
    | cons a l1 =>
      cases l2 with
      | nil => rw [g_slist_sort_merge_nil_right, g_slist_sort_merge_nil_right]
      | cons b l2 =>
        cases f2 with
        | zero => simp at h2
        | succ f2 =>
          simp only [List.length_cons] at h1 h2
          rw [g_slist_sort_merge_cons, g_slist_sort_merge_cons,
            ih f2 l1 (b :: l2) (by simp only [List.length_cons]; omega)
              (by simp only [List.length_cons]; omega),
            ih f2 (a :: l1) l2 (by simp only [List.length_cons]; omega)
              (by simp only [List.length_cons]; omega)]

theorem g_slist_sort_real_cons_cons (cmp : Str → Str → Int) (fuel : Nat) (a b : Str)
    (rest : List Str) :
    g_slist_sort_real cmp (fuel + 1) (a :: b :: rest) =
      g_slist_sort_merge cmp (a :: b :: rest).length
        (g_slist_sort_real cmp fuel
          ((a :: b :: rest).take ((a :: b :: rest).length / 2)))
        (g_slist_sort_real cmp fuel
          ((a :: b :: rest).drop ((a :: b :: rest).length / 2))) := rfl

/-- With fuel for every node of the list the sort does not depend on it. -/
theorem g_slist_sort_real_fuel (cmp : Str → Str → Int) (f1 : Nat) :
    ∀ (f2 : Nat) (list : List Str), list.length ≤ f1 → list.length ≤ f2 →
      g_slist_sort_real cmp f1 list = g_slist_sort_real cmp f2 list := by
  induction f1 with
  | zero =>
    intro f2 list h1 _
    cases list with
    | nil => cases f2 <;> rfl
    | cons a l => simp at h1
  | succ f1 ih =>
    intro f2 list h1 h2
    cases list with
    | nil => cases f2 <;> rfl
    | cons a l =>
      cases l with
      | nil => cases f2 <;> rfl
      | cons b rest =>
        cases f2 with
        | zero => simp at h2
        | succ f2 =>
          have hlen : (a :: b :: rest).length = rest.length + 2 := by simp
          have ht : ((a :: b :: rest).take ((a :: b :: rest).length / 2)).length ≤
              rest.length + 1 := by
            rw [List.length_take, hlen]
            omega
          have hd : ((a :: b :: rest).drop ((a :: b :: rest).length / 2)).length ≤
              rest.length + 1 := by
            rw [List.length_drop, hlen]
            omega
          rw [hlen] at h1 h2
          rw [g_slist_sort_real_cons_cons, g_slist_sort_real_cons_cons,
            ih f2 _ (by omega) (by omega), ih f2 _ (by omega) (by omega)]

/-! ## The list of custom file templates: claim C11 -/

/-- Where the names do not differ in case only, a name found in both directories is
kept once: the two copies are neighbours after the sort. -/
theorem add_custom_template_items_sample :
    add_custom_template_items sample_env sample_detect_from_extension sample_str_casecmp
      ["b.c".toList, "a.c".toList, "x.txt".toList] ["a.c".toList, "x.txt".toList] =
        ["x.txt".toList, "a.c".toList, "b.c".toList] := by
  decide

/-- C11 (code defect): the user directory holds `a.c` and `A.c`, the system directory
`a.c`, each list without duplicates. The two names differ in case only, so the
comparison finds them equal, the stable sort leaves `A.c` between the two `a.c`, and
the loop, which looks at neighbours, removes nothing: `a.c` is in the result twice. -/
theorem C11_name_in_both_directories_survives_twice :
    ["a.c".toList, "A.c".toList].Nodup ∧ ["a.c".toList].Nodup ∧
    compare_filenames_by_filetype sample_env sample_detect_from_extension sample_str_casecmp
      "a.c".toList "A.c".toList = 0 ∧
    add_custom_template_items sample_env sample_detect_from_extension sample_str_casecmp
      ["a.c".toList, "A.c".toList] ["a.c".toList] =
        ["a.c".toList, "A.c".toList, "a.c".toList] ∧
    (add_custom_template_items sample_env sample_detect_from_extension sample_str_casecmp
      ["a.c".toList, "A.c".toList] ["a.c".toList]).count "a.c".toList = 2 := by
  decide

end Templates
